import Mathlib

/-! stockprecpp: the sequence buffer and the forecast engine

A shallow embedding of `src/dynamic_array.hpp` and of `calculate_predictions`
from `src/hd.cpp`, followed by theorems about them.

Conventions of the embedding

* `unsigned int` is a `Nat`; the two places where the source can wrap
  (`capacity * 2` and `size++` in `add`) reduce modulo `2^32` explicitly.
  Subtractions the source guards (`size - 1` after `index < size`) stay plain.
* The heap block behind `data` is a total map from slot number to content.
  Slots at or beyond the allocated length are outside the block; the source
  gives them no meaning.
* `new T[n]` default-constructs its slots: `T()` is `default` of `Inhabited T`.
  It is the throwing form of `operator new`, so a failed allocation leaves the
  function as `std::bad_alloc`; the flag `heap_ok` says whether it succeeds.
* A `for` loop is the generic `for_loop`, which runs the body a given number
  of times with the loop index counting up from a start value.
* `double` is read as `ℚ`: exact arithmetic, no rounding. Where a claim turns on the
  rounding of the machine, `binary64` and `ema_after_binary64` state it.
-/

/-- Number of values of an `unsigned int`, `2^32`. -/
def UINT_RANGE : Nat := 4294967296

/-- State after `count` passes of `for (i = start; i < start + count; i++) s = body(i, s)`,
entered with state `init`. -/
def for_loop {σ : Type} (start : Nat) (body : Nat → σ → σ) (init : σ) : Nat → σ
  | 0 => init
  | k + 1 => body (start + k) (for_loop start body init k)

/-- The assignment `block[i] = v`. -/
def store_slot {T : Type} (block : Nat → T) (i : Nat) (v : T) : Nat → T :=
  fun j => if j = i then v else block j

/-- How a call ends: with a returned `bool`, or with `std::bad_alloc` thrown by
`new T[n]` and caught nowhere in the container. -/
inductive Completion where
  | returned (value : Bool)
  | bad_alloc
  deriving DecidableEq, Repr

/-- The fields of `template <typename T> struct dynamic_array`. -/
structure dynamic_array (T : Type) where
  size : Nat
  capacity : Nat
  data : Nat → T
  default_value : T

namespace dynamic_array

variable {T : Type}

/-- The constructor `dynamic_array(initial_capacity, default_val)`, its allocation
succeeding. With `capacity == 0` the pointer is null: a block without slots. -/
def make [Inhabited T] (initial_capacity : Nat) (default_val : T) : dynamic_array T :=
  { size := 0
    capacity := initial_capacity
    default_value := default_val
    data := fun _ => default }

/-- The private `resize(new_capacity)`. The test `if (!new_data) return false` is kept
as the source has it, although the throwing `new` never yields null. -/
def resize [Inhabited T] (heap_ok : Bool) (a : dynamic_array T) (new_capacity : Nat) :
    Completion × dynamic_array T :=
  if heap_ok then
    let new_data : Nat → T := fun _ => default
    let items_to_copy := if a.size < new_capacity then a.size else new_capacity
    let new_data := for_loop 0 (fun i nd => store_slot nd i (a.data i)) new_data items_to_copy
    let a1 := { a with data := new_data, capacity := new_capacity }
    let a2 := if a1.size > a1.capacity then { a1 with size := a1.capacity } else a1
    (Completion.returned true, a2)
  else
    (Completion.bad_alloc, a)

/-- The tail of `add`: `data[size] = value; size++; return true;`. -/
def push_back (a : dynamic_array T) (value : T) : Completion × dynamic_array T :=
  (Completion.returned true,
    { a with data := store_slot a.data a.size value, size := (a.size + 1) % UINT_RANGE })

/-- The method `add(value)`. -/
def add [Inhabited T] (heap_ok : Bool) (a : dynamic_array T) (value : T) :
    Completion × dynamic_array T :=
  if a.size ≥ a.capacity then
    let new_capacity := if a.capacity > 0 then (a.capacity * 2) % UINT_RANGE else 1
    match resize heap_ok a new_capacity with
    | (Completion.returned true, a1) => push_back a1 value
    | (Completion.returned false, a1) => (Completion.returned false, a1)
    | (Completion.bad_alloc, a1) => (Completion.bad_alloc, a1)
  else
    push_back a value

/-- The method `remove(index)`. -/
def remove (a : dynamic_array T) (index : Nat) : Bool × dynamic_array T :=
  if index ≥ a.size then
    (false, a)
  else
    let data := for_loop index (fun i d => store_slot d i (d (i + 1))) a.data (a.size - 1 - index)
    (true, { a with data := data, size := a.size - 1 })

/-- The method `get(index)`. -/
def get (a : dynamic_array T) (index : Nat) : T :=
  if index ≥ a.size then a.default_value else a.data index

/-- The method `set(index, value)`. -/
def set (a : dynamic_array T) (index : Nat) (value : T) : Bool × dynamic_array T :=
  if index ≥ a.size then
    (false, a)
  else
    (true, { a with data := store_slot a.data index value })

/-- The method `clear()`. -/
def clear (a : dynamic_array T) : dynamic_array T :=
  { a with size := 0 }

/-- The method `last()`. -/
def last (a : dynamic_array T) : T :=
  if a.size > 0 then a.data (a.size - 1) else a.default_value

/-- The method `empty()`. -/
def empty (a : dynamic_array T) : Bool :=
  decide (a.size = 0)

/-- The method `min()`. -/
def min [LT T] [DecidableRel (fun x y : T => x < y)] (a : dynamic_array T) : T :=
  if a.size = 0 then a.default_value
  else
    for_loop 1 (fun i min_val => if a.data i < min_val then a.data i else min_val)
      (a.data 0) (a.size - 1)

/-- The method `max()`. -/
def max [LT T] [DecidableRel (fun x y : T => x < y)] (a : dynamic_array T) : T :=
  if a.size = 0 then a.default_value
  else
    for_loop 1 (fun i max_val => if a.data i > max_val then a.data i else max_val)
      (a.data 0) (a.size - 1)

/-- The value of `new_capacity` in `add`: `(capacity > 0) ? capacity * 2 : 1`. -/
def grown_capacity (a : dynamic_array T) : Nat :=
  if a.capacity > 0 then (a.capacity * 2) % UINT_RANGE else 1

/-- Calls `add(v)` for every `v` of the list in order, each allocation succeeding;
gives the completions of the calls, in order, and the buffer left behind. -/
def add_all [Inhabited T] (a : dynamic_array T) : List T → List Completion × dynamic_array T
  | [] => ([], a)
  | v :: vs =>
    let r := add true a v
    let rest := add_all r.2 vs
    (r.1 :: rest.1, rest.2)

end dynamic_array

/-- One call of a mutating method of the buffer; `add` carries whether its allocation,
if it makes one, succeeds. -/
inductive BufferCall (T : Type) where
  | add (heap_ok : Bool) (value : T)
  | remove (index : Nat)
  | set (index : Nat) (value : T)
  | clear

/-- The buffer after one call. -/
def apply_call {T : Type} [Inhabited T] (a : dynamic_array T) : BufferCall T → dynamic_array T
  | BufferCall.add heap_ok value => (a.add heap_ok value).2
  | BufferCall.remove index => (a.remove index).2
  | BufferCall.set index value => (a.set index value).2
  | BufferCall.clear => a.clear

/-- The buffer after a finite sequence of calls, made in order. -/
def run_calls {T : Type} [Inhabited T] (a : dynamic_array T) (calls : List (BufferCall T)) :
    dynamic_array T :=
  calls.foldl apply_call a

/-! ## The forecast engine (`src/hd.cpp`) -/

/-- The enumeration `PredictionModel`. -/
inductive PredictionModel where
  | LINEAR_REGRESSION
  | MOVING_AVERAGE
  | EXPONENTIAL_SMOOTHING
  deriving DecidableEq, Repr

/-- The record `StockData`; its field `open` is `open_price` here. -/
structure StockData where
  date : String
  open_price : ℚ
  high : ℚ
  low : ℚ
  close : ℚ
  volume : ℚ
  sma5 : ℚ
  prediction : ℚ
  deriving DecidableEq

/-- The default constructor `StockData()`. -/
instance : Inhabited StockData :=
  ⟨{ date := "", open_price := 0, high := 0, low := 0, close := 0, volume := 0, sma5 := 0,
     prediction := 0 }⟩

/-- The record `PredictionStats`. -/
structure PredictionStats where
  slope : ℚ
  intercept : ℚ
  r_squared : ℚ
  next_prediction : ℚ
  confidence : ℚ
  deriving DecidableEq

/-- The default constructor `PredictionStats()`: every field zero. -/
instance : Inhabited PredictionStats :=
  ⟨{ slope := 0, intercept := 0, r_squared := 0, next_prediction := 0, confidence := 0 }⟩

/-- The record `StockPredictor`. -/
structure StockPredictor where
  data : dynamic_array StockData
  model : PredictionModel
  stats : PredictionStats
  company_name : String
  filename : String

/-- The default constructor `StockPredictor()`. -/
instance : Inhabited StockPredictor :=
  ⟨{ data := dynamic_array.make 50 default
     model := PredictionModel.LINEAR_REGRESSION
     stats := default
     company_name := "Unknown"
     filename := "" }⟩

/-- The function `reverse_data_order`. -/
def reverse_data_order (predictor : StockPredictor) : StockPredictor :=
  let size := predictor.data.size
  let data := for_loop 0
    (fun i d =>
      let temp := d.get i
      let d1 := (d.set i (d.get (size - 1 - i))).2
      (d1.set (size - 1 - i) temp).2)
    predictor.data (size / 2)
  { predictor with data := data }

/-- The first loop of the `LINEAR_REGRESSION` case: `y_mean += data.get(i).close` for
`i = 0 .. size - 1`, from `y_mean = 0`. -/
def sum_of_closes (data : dynamic_array StockData) : ℚ :=
  for_loop 0 (fun i y_mean => y_mean + (data.get i).close) 0 data.size

/-- The second loop of the `LINEAR_REGRESSION` case; the pair is
`(numerator, denominator)`, entered as `(0, 0)`. -/
def regression_sums (data : dynamic_array StockData) (x_mean y_mean : ℚ) : ℚ × ℚ :=
  for_loop 0
    (fun i s =>
      let x_diff := (i : ℚ) - x_mean
      let y_diff := (data.get i).close - y_mean
      (s.1 + x_diff * y_diff, s.2 + x_diff * x_diff))
    (0, 0) data.size

/-- The loop of the `MOVING_AVERAGE` case: `sum += data.get(size - 1 - i).close` for
`i = 0 .. 4`, from `sum = 0`. -/
def last_five_sum (data : dynamic_array StockData) : ℚ :=
  for_loop 0 (fun i sum => sum + (data.get (data.size - 1 - i)).close) 0 5

/-- The value of `ema` in the `EXPONENTIAL_SMOOTHING` case after the given number of
passes of `for (i = 1; i < size; i++) ema = alpha * data.get(i).close + (1 - alpha) * ema`,
seeded with `data.get(0).close`; `alpha = 0.3`. -/
def ema_after (data : dynamic_array StockData) (passes : Nat) : ℚ :=
  let alpha : ℚ := 0.3
  for_loop 1 (fun i ema => alpha * (data.get i).close + (1 - alpha) * ema)
    (data.get 0).close passes

/-- The function `calculate_predictions`. -/
def calculate_predictions (predictor : StockPredictor) : StockPredictor :=
  if predictor.data.size < 2 then predictor
  else
    match predictor.model with
    | PredictionModel.LINEAR_REGRESSION =>
      let x_mean : ℚ := ((predictor.data.size - 1 : Nat) : ℚ) / 2.0
      let y_mean : ℚ := sum_of_closes predictor.data
      let y_mean : ℚ := y_mean / (predictor.data.size : ℚ)
      let sums := regression_sums predictor.data x_mean y_mean
      let numerator := sums.1
      let denominator := sums.2
      let slope : ℚ := if denominator ≠ 0 then numerator / denominator else 0
      let intercept : ℚ := y_mean - slope * x_mean
      let next_prediction : ℚ := slope * (predictor.data.size : ℚ) + intercept
      { predictor with
        stats := { predictor.stats with
          slope := slope, intercept := intercept, next_prediction := next_prediction,
          confidence := 0.8 } }
    | PredictionModel.MOVING_AVERAGE =>
      if predictor.data.size ≥ 5 then
        let sum := last_five_sum predictor.data
        { predictor with
          stats := { predictor.stats with next_prediction := sum / 5.0, confidence := 0.7 } }
      else predictor
    | PredictionModel.EXPONENTIAL_SMOOTHING =>
      let ema := ema_after predictor.data (predictor.data.size - 1)
      { predictor with
        stats := { predictor.stats with next_prediction := ema, confidence := 0.75 } }

/-- A bar of which only the closing price is set. -/
def bar_with_close (close : ℚ) : StockData :=
  { (default : StockData) with close := close }

/-- The default `StockPredictor()` after `data.add(bar)` for a bar of each given closing
price, in order, and with the given model selected. -/
def predictor_of_closes (model : PredictionModel) (closes : List ℚ) : StockPredictor :=
  { (default : StockPredictor) with
    data := ((default : StockPredictor).data.add_all (closes.map bar_with_close)).2
    model := model }

/-- A full buffer of `2^31` slots that all hold 0, with default value 0: the content of
`dynamic_array<unsigned>(2147483648, 0)` after `2^31` calls of `add(0)`. -/
def half_range_full : dynamic_array Nat :=
  { size := 2147483648
    capacity := 2147483648
    data := fun _ => 0
    default_value := 0 }

/-! ## The `double` type of the program: binary64 rounding

The definitions above read `double` as `ℚ`. The three below state what the machine
computes: every operation gives the exact result rounded to the nearest binary64 value. -/

/-- The integer nearest to `x`; when `x` lies halfway between two integers, the even one. -/
def round_half_even (x : ℚ) : ℤ :=
  if x - ⌊x⌋ < 1 / 2 then ⌊x⌋
  else if x - ⌊x⌋ > 1 / 2 then ⌊x⌋ + 1
  else if ⌊x⌋ % 2 = 0 then ⌊x⌋
  else ⌊x⌋ + 1

/-- The binary64 value nearest to `x`, ties to even: `x` is rounded to 53 significant bits,
the last of them worth `2 ^ (⌊log₂ |x|⌋ - 52)`. The exponent is not bounded, so overflow and
subnormal values are left out. -/
def binary64 (x : ℚ) : ℚ :=
  if x = 0 then 0
  else (round_half_even (x / 2 ^ (Int.log 2 |x| - 52)) : ℚ) * 2 ^ (Int.log 2 |x| - 52)

/-- The loop of the `EXPONENTIAL_SMOOTHING` case as the machine runs it: `ema_after` with the
literal `0.3` and the result of every `double` operation rounded to binary64. The closes read
from the buffer are taken to be binary64 values already. -/
def ema_after_binary64 (data : dynamic_array StockData) (passes : Nat) : ℚ :=
  let alpha : ℚ := binary64 0.3
  for_loop 1
    (fun i ema =>
      binary64 (binary64 (alpha * (data.get i).close) + binary64 (binary64 (1 - alpha) * ema)))
    (data.get 0).close passes

namespace dynamic_array

variable {T : Type}

/-! ## Lemmas on the loops and on a single `add` -/

theorem copy_loop_apply (f g : Nat → T) (n j : Nat) :
    for_loop 0 (fun i nd => store_slot nd i (f i)) g n j = if j < n then f j else g j := by
  induction n with
  | zero => simp [for_loop]
  | succ k ih =>
    simp only [for_loop, store_slot, ih, Nat.zero_add]
    by_cases h1 : j = k
    · subst h1; simp
    · by_cases h2 : j < k
      · have : j < k + 1 := by omega
        simp [h1, h2, this]
      · have : ¬ j < k + 1 := by omega
        simp [h1, h2, this]

theorem resize_ok [Inhabited T] (a : dynamic_array T) (c : Nat) (h : a.size ≤ c) :
    resize true a c =
      (Completion.returned true,
        { a with data := fun j => if j < a.size then a.data j else default, capacity := c }) := by
  have hcopy : (if a.size < c then a.size else c) = a.size := by
    split_ifs <;> omega
  have hnot : ¬ a.size > c := by omega
  simp only [resize, if_true, hcopy, hnot, if_false]
  congr 2
  funext j
  exact copy_loop_apply a.data (fun _ => default) a.size j

/-- With the allocation succeeding, `add` always reaches its tail. -/
theorem add_true_eq [Inhabited T] (a : dynamic_array T) (v : T) :
    add true a v =
      if a.size ≥ a.capacity then push_back (resize true a (grown_capacity a)).2 v
      else push_back a v := by
  unfold add
  by_cases h : a.size ≥ a.capacity
  · rw [if_pos h, if_pos h]; rfl
  · rw [if_neg h, if_neg h]

theorem add_true_returns [Inhabited T] (a : dynamic_array T) (v : T) :
    (add true a v).1 = Completion.returned true := by
  rw [add_true_eq]; split_ifs <;> rfl

theorem add_true_size_lt [Inhabited T] (a : dynamic_array T) (v : T) :
    (add true a v).2.size < UINT_RANGE := by
  rw [add_true_eq]
  split_ifs <;> exact Nat.mod_lt _ (by decide)

/-- One `add` on a buffer with `size ≤ capacity`, outside the wrap of `capacity * 2`. -/
theorem add_step [Inhabited T] (a : dynamic_array T) (v : T)
    (hwf : a.size ≤ a.capacity) (hcap : a.capacity < UINT_RANGE)
    (hroom : a.size < a.capacity ∨ a.capacity < 2147483648) :
    (add true a v).2.size = a.size + 1 ∧
    (add true a v).2.capacity =
      (if a.size < a.capacity then a.capacity else if a.capacity > 0 then 2 * a.capacity else 1) ∧
    (add true a v).2.default_value = a.default_value ∧
    (add true a v).2.data a.size = v ∧
    ∀ i, i < a.size → (add true a v).2.data i = a.data i := by
  unfold UINT_RANGE at hcap
  have hmod : (a.size + 1) % 4294967296 = a.size + 1 := Nat.mod_eq_of_lt (by omega)
  rw [add_true_eq]
  by_cases hlt : a.size < a.capacity
  · have hge : ¬ a.size ≥ a.capacity := by omega
    simp only [hge, if_false, push_back, UINT_RANGE, hmod, hlt, if_true, store_slot]
    refine ⟨trivial, trivial, trivial, by simp, ?_⟩
    intro i hi
    have : i ≠ a.size := by omega
    simp [this]
  · have hge : a.size ≥ a.capacity := by omega
    have hgrow : grown_capacity a = if a.capacity > 0 then 2 * a.capacity else 1 := by
      unfold grown_capacity UINT_RANGE
      split_ifs
      · rw [Nat.mod_eq_of_lt (by omega)]; omega
      · rfl
    have hfit : a.size ≤ grown_capacity a := by
      rw [hgrow]; split_ifs <;> omega
    rw [if_pos hge, resize_ok a _ hfit]
    simp only [push_back, UINT_RANGE, hmod, hlt, if_false, store_slot, hgrow]
    refine ⟨trivial, trivial, trivial, by simp, ?_⟩
    intro i hi
    have : i ≠ a.size := by omega
    simp [this, hi]

/-- A run of `add` calls that never has to double a capacity of `2^31` or more. -/
theorem add_all_inv [Inhabited T] (vs : List T) : ∀ (a : dynamic_array T),
    a.size ≤ a.capacity → a.capacity < UINT_RANGE →
    (a.size + vs.length ≤ 2147483648 ∨ a.size + vs.length ≤ a.capacity) →
    (add_all a vs).1 = List.replicate vs.length (Completion.returned true) ∧
    (add_all a vs).2.size = a.size + vs.length ∧
    (add_all a vs).2.default_value = a.default_value ∧
    (a.size + vs.length ≤ a.capacity → (add_all a vs).2.capacity = a.capacity) ∧
    (∀ i, i < a.size → (add_all a vs).2.data i = a.data i) ∧
    (∀ i (h : i < vs.length), (add_all a vs).2.data (a.size + i) = vs[i]) := by
  induction vs with
  | nil =>
    intro a _ _ _
    simp [add_all]
  | cons v vs ih =>
    intro a hwf hcap hroom
    have hlen : (v :: vs).length = vs.length + 1 := rfl
    rw [hlen] at hroom
    have hroom1 : a.size < a.capacity ∨ a.capacity < 2147483648 := by omega
    obtain ⟨hs, hc, hd, hnew, hold⟩ := add_step a v hwf hcap hroom1
    have hwf2 : (add true a v).2.size ≤ (add true a v).2.capacity := by
      rw [hs, hc]; split_ifs <;> omega
    have hcap2 : (add true a v).2.capacity < UINT_RANGE := by
      rw [hc]; unfold UINT_RANGE at *; split_ifs <;> omega
    have hmono : a.capacity ≤ (add true a v).2.capacity := by
      rw [hc]; split_ifs <;> omega
    have hroom2 : (add true a v).2.size + vs.length ≤ 2147483648 ∨
        (add true a v).2.size + vs.length ≤ (add true a v).2.capacity := by
      rw [hs]; omega
    obtain ⟨r1, r2, r3, r4, r5, r6⟩ := ih (add true a v).2 hwf2 hcap2 hroom2
    simp only [add_all]
    refine ⟨?_, ?_, ?_, ?_, ?_, ?_⟩
    · rw [r1, add_true_returns, hlen, List.replicate_succ]
    · rw [r2, hs, hlen]; omega
    · rw [r3, hd]
    · intro hfit
      rw [hlen] at hfit
      have hlt : a.size < a.capacity := by omega
      rw [r4 (by rw [hs, hc, if_pos hlt]; omega), hc, if_pos hlt]
    · intro i hi
      rw [r5 i (by rw [hs]; omega)]
      exact hold i hi
    · intro i hi
      cases i with
      | zero =>
        rw [r5 _ (by rw [hs]; omega)]
        simpa using hnew
      | succ k =>
        have hk : k < vs.length := by simpa using hi
        have := r6 k hk
        rw [hs] at this
        have hidx : a.size + (k + 1) = a.size + 1 + k := by omega
        rw [hidx, this]
        rfl

/-- After at least one `add` the size is an `unsigned int` value. -/
theorem add_all_size_lt [Inhabited T] (vs : List T) : ∀ (a : dynamic_array T),
    0 < vs.length → (add_all a vs).2.size < UINT_RANGE := by
  induction vs with
  | nil => intro a h; simp at h
  | cons v vs ih =>
    intro a _
    cases vs with
    | nil => exact add_true_size_lt a v
    | cons w ws => exact ih (add true a v).2 (by simp)

end dynamic_array

/-! ## C1: appended values are read back in order -/

/-- C1 (as amended): from `dynamic_array(C, d)` with `C` an `unsigned int`, appending the
values `v_0..v_{N-1}` in order with `N ≤ 2^31` or `N ≤ C` makes every `add` return true,
leaves `size = N`, and `get(i)` is `v_i` for every `i < N`. -/
theorem add_all_reads_back {T : Type} [Inhabited T] (C : Nat) (d : T) (vs : List T)
    (hC : C < UINT_RANGE) (hN : vs.length ≤ 2147483648 ∨ vs.length ≤ C) :
    ((dynamic_array.make C d).add_all vs).1 = List.replicate vs.length (Completion.returned true) ∧
    ((dynamic_array.make C d).add_all vs).2.size = vs.length ∧
    ∀ i (h : i < vs.length), ((dynamic_array.make C d).add_all vs).2.get i = vs[i] := by
  have hinv := dynamic_array.add_all_inv vs (dynamic_array.make C d)
    (Nat.zero_le _) hC (by simpa [dynamic_array.make] using hN)
  obtain ⟨r1, r2, _, _, _, r6⟩ := hinv
  have hsize : ((dynamic_array.make C d).add_all vs).2.size = vs.length := by
    simpa [dynamic_array.make] using r2
  refine ⟨r1, hsize, ?_⟩
  intro i hi
  have hnot : ¬ i ≥ ((dynamic_array.make C d).add_all vs).2.size := by omega
  have := r6 i hi
  simp only [dynamic_array.make, Nat.zero_add] at this
  simp only [dynamic_array.get, hnot, if_false]
  exact this

/-- C1, witness: capacity 2 and the five values 10, 20, 30, 40, 50 (`N = 2*C + 1`). -/
theorem add_all_reads_back_witness :
    (2 < UINT_RANGE ∧ ([10, 20, 30, 40, 50] : List Nat).length ≤ 2147483648) ∧
    ((dynamic_array.make 2 (0 : Nat)).add_all [10, 20, 30, 40, 50]).2.size = 5 ∧
    ((dynamic_array.make 2 (0 : Nat)).add_all [10, 20, 30, 40, 50]).2.get 4 = 50 :=
  ⟨⟨by decide, by decide⟩,
    (add_all_reads_back 2 (0 : Nat) [10, 20, 30, 40, 50] (by decide) (Or.inl (by decide))).2.1,
    (add_all_reads_back 2 (0 : Nat) [10, 20, 30, 40, 50] (by decide) (Or.inl (by decide))).2.2 4
      (by decide)⟩

/-- C1, counterexample: from `dynamic_array(0, 0)`, after `2^32` calls of `add(0)` the size
is not `2^32`, since `size` is an `unsigned int`. -/
theorem add_all_reads_back_counterexample :
    ¬ (((dynamic_array.make 0 (0 : Nat)).add_all (List.replicate 4294967296 0)).1
          = List.replicate (List.replicate 4294967296 (0 : Nat)).length (Completion.returned true) ∧
        ((dynamic_array.make 0 (0 : Nat)).add_all (List.replicate 4294967296 0)).2.size
          = (List.replicate 4294967296 (0 : Nat)).length ∧
        ∀ i (h : i < (List.replicate 4294967296 (0 : Nat)).length),
          ((dynamic_array.make 0 (0 : Nat)).add_all (List.replicate 4294967296 0)).2.get i
            = (List.replicate 4294967296 (0 : Nat))[i]) := by
  rintro ⟨_, hsize, _⟩
  have hlt := dynamic_array.add_all_size_lt (List.replicate 4294967296 (0 : Nat))
    (dynamic_array.make 0 0) (by rw [List.length_replicate]; omega)
  rw [hsize, List.length_replicate] at hlt
  exact absurd hlt (by unfold UINT_RANGE; omega)

/-! ## C2: `remove` closes the gap -/

theorem shift_loop_apply {T : Type} (f : Nat → T) (index count j : Nat) :
    for_loop index (fun i d => store_slot d i (d (i + 1))) f count j =
      if index ≤ j ∧ j < index + count then f (j + 1) else f j := by
  induction count generalizing j with
  | zero =>
    have hno : ¬ (index ≤ j ∧ j < index + 0) := by omega
    rw [if_neg hno]
    rfl
  | succ k ih =>
    simp only [for_loop, store_slot]
    by_cases h1 : j = index + k
    · subst h1
      rw [if_pos rfl, ih]
      have hno : ¬ (index ≤ index + k + 1 ∧ index + k + 1 < index + k) := by omega
      have hyes : index ≤ index + k ∧ index + k < index + (k + 1) := by omega
      rw [if_neg hno, if_pos hyes]
    · rw [if_neg h1, ih]
      by_cases h2 : index ≤ j ∧ j < index + k
      · have h3 : index ≤ j ∧ j < index + (k + 1) := by omega
        rw [if_pos h2, if_pos h3]
      · have h3 : ¬ (index ≤ j ∧ j < index + (k + 1)) := by omega
        rw [if_neg h2, if_neg h3]

/-- C2: for `k < size`, `remove(k)` returns true, takes exactly one off the size, keeps the
capacity, keeps `get(i)` for `i < k`, and makes `get(i)` the old `get(i + 1)` for `i ≥ k`,
which is the default value from the new size on. -/
theorem remove_closes_gap {T : Type} (a : dynamic_array T) (k : Nat) (hk : k < a.size) :
    (a.remove k).1 = true ∧
    (a.remove k).2.size + 1 = a.size ∧
    (a.remove k).2.capacity = a.capacity ∧
    (∀ i, i < k → (a.remove k).2.get i = a.get i) ∧
    (∀ i, k ≤ i → (a.remove k).2.get i = a.get (i + 1)) ∧
    (∀ i, (a.remove k).2.size ≤ i → (a.remove k).2.get i = a.default_value) := by
  have hnot : ¬ k ≥ a.size := by omega
  simp only [dynamic_array.remove, hnot, if_false, dynamic_array.get, shift_loop_apply]
  refine ⟨trivial, by omega, trivial, ?_, ?_, ?_⟩
  · intro i hi
    have h1 : ¬ i ≥ a.size - 1 := by omega
    have h2 : ¬ i ≥ a.size := by omega
    have h3 : ¬ (k ≤ i ∧ i < k + (a.size - 1 - k)) := by omega
    rw [if_neg h1, if_neg h2, if_neg h3]
  · intro i hi
    by_cases hin : i ≥ a.size - 1
    · have h2 : i + 1 ≥ a.size := by omega
      rw [if_pos hin, if_pos h2]
    · have h2 : ¬ i + 1 ≥ a.size := by omega
      have h3 : k ≤ i ∧ i < k + (a.size - 1 - k) := by omega
      rw [if_neg hin, if_neg h2, if_pos h3]
  · intro i hi
    have h1 : i ≥ a.size - 1 := hi
    rw [if_pos h1]

/-- C2, witness: removing index 1 of the buffer holding 10, 20, 30. -/
theorem remove_closes_gap_witness :
    1 < ((dynamic_array.make 4 (0 : Nat)).add_all [10, 20, 30]).2.size ∧
    ((((dynamic_array.make 4 (0 : Nat)).add_all [10, 20, 30]).2.remove 1).2.size + 1 = 3 ∧
     (((dynamic_array.make 4 (0 : Nat)).add_all [10, 20, 30]).2.remove 1).2.get 1 = 30) :=
  ⟨by decide,
    (remove_closes_gap ((dynamic_array.make 4 (0 : Nat)).add_all [10, 20, 30]).2 1
      (by decide)).2.1,
    by
      have h := (remove_closes_gap ((dynamic_array.make 4 (0 : Nat)).add_all [10, 20, 30]).2 1
        (by decide)).2.2.2.2.1 1 (Nat.le_refl 1)
      rw [h]
      decide⟩

/-! ## C3: reads past the end give the configured default -/

theorem add_default_value {T : Type} [Inhabited T] (heap_ok : Bool) (a : dynamic_array T)
    (v : T) : (a.add heap_ok v).2.default_value = a.default_value := by
  cases heap_ok with
  | true =>
    rw [dynamic_array.add_true_eq]
    split_ifs
    · simp only [dynamic_array.push_back, dynamic_array.resize, if_true]
      split_ifs <;> rfl
    · rfl
  | false =>
    unfold dynamic_array.add
    split_ifs <;> rfl

theorem apply_call_default_value {T : Type} [Inhabited T] (a : dynamic_array T)
    (c : BufferCall T) : (apply_call a c).default_value = a.default_value := by
  cases c with
  | add heap_ok value => exact add_default_value heap_ok a value
  | remove index =>
    simp only [apply_call, dynamic_array.remove]
    split_ifs <;> rfl
  | set index value =>
    simp only [apply_call, dynamic_array.set]
    split_ifs <;> rfl
  | clear => rfl

theorem run_calls_default_value {T : Type} [Inhabited T] (calls : List (BufferCall T)) :
    ∀ a : dynamic_array T, (run_calls a calls).default_value = a.default_value := by
  induction calls with
  | nil => intro a; rfl
  | cons c cs ih =>
    intro a
    have h := ih (apply_call a c)
    rw [apply_call_default_value] at h
    exact h

/-- C3: on every buffer reached from `dynamic_array(C, d)` by a finite sequence of `add`,
`remove`, `set` and `clear` calls, `get(index)` is `d` for every `index ≥ size`. -/
theorem get_past_end_is_default {T : Type} [Inhabited T] (C : Nat) (d : T)
    (calls : List (BufferCall T)) (index : Nat)
    (h : index ≥ (run_calls (dynamic_array.make C d) calls).size) :
    (run_calls (dynamic_array.make C d) calls).get index = d := by
  unfold dynamic_array.get
  rw [if_pos h, run_calls_default_value]
  rfl

/-- C3, witness: after adding 10, 20, 30, removing index 0 and clearing, slot 0 (which still
holds a stale 20) reads as the default 7. -/
theorem get_past_end_is_default_witness :
    (0 ≥ (run_calls (dynamic_array.make 1 (7 : Nat))
        [BufferCall.add true 10, BufferCall.add true 20, BufferCall.add true 30,
         BufferCall.remove 0, BufferCall.clear]).size) ∧
    (run_calls (dynamic_array.make 1 (7 : Nat))
        [BufferCall.add true 10, BufferCall.add true 20, BufferCall.add true 30,
         BufferCall.remove 0, BufferCall.clear]).data 0 = 20 ∧
    (run_calls (dynamic_array.make 1 (7 : Nat))
        [BufferCall.add true 10, BufferCall.add true 20, BufferCall.add true 30,
         BufferCall.remove 0, BufferCall.clear]).get 0 = 7 :=
  ⟨by decide, by decide,
    get_past_end_is_default 1 7
      [BufferCall.add true 10, BufferCall.add true 20, BufferCall.add true 30,
       BufferCall.remove 0, BufferCall.clear] 0 (by decide)⟩

/-! ## C4: `set` and `remove` refuse an index past the end -/

/-- C4: for `index ≥ size`, `set(index, v)` and `remove(index)` return false and leave the
buffer as it was: same size, capacity, default value, and `get(i)` for every `i`. -/
theorem set_remove_past_end {T : Type} (a : dynamic_array T) (index : Nat) (v : T)
    (h : index ≥ a.size) :
    ((a.set index v).1 = false ∧ (a.set index v).2 = a ∧
      (a.set index v).2.size = a.size ∧ (a.set index v).2.capacity = a.capacity ∧
      (a.set index v).2.default_value = a.default_value ∧
      ∀ i, (a.set index v).2.get i = a.get i) ∧
    ((a.remove index).1 = false ∧ (a.remove index).2 = a ∧
      (a.remove index).2.size = a.size ∧ (a.remove index).2.capacity = a.capacity ∧
      (a.remove index).2.default_value = a.default_value ∧
      ∀ i, (a.remove index).2.get i = a.get i) := by
  have hs : a.set index v = (false, a) := by
    unfold dynamic_array.set
    rw [if_pos h]
  have hr : a.remove index = (false, a) := by
    unfold dynamic_array.remove
    rw [if_pos h]
  rw [hs, hr]
  exact ⟨⟨rfl, rfl, rfl, rfl, rfl, fun _ => rfl⟩, ⟨rfl, rfl, rfl, rfl, rfl, fun _ => rfl⟩⟩

/-- C4, witness: index 0 on the empty buffer `dynamic_array(3, 7)`. -/
theorem set_remove_past_end_witness :
    0 ≥ (dynamic_array.make 3 (7 : Nat)).size ∧
    ((dynamic_array.make 3 (7 : Nat)).set 0 5).1 = false ∧
    ((dynamic_array.make 3 (7 : Nat)).remove 0).1 = false :=
  ⟨by decide,
    (set_remove_past_end (dynamic_array.make 3 (7 : Nat)) 0 5 (by decide)).1.1,
    (set_remove_past_end (dynamic_array.make 3 (7 : Nat)) 0 5 (by decide)).2.1⟩

/-! ## C5: `set` overwrites one slot -/

/-- C5: for `index < size`, `set(index, v)` returns true, makes `get(index)` equal `v`, keeps
`get(j)` for every `j ≠ index`, and keeps size, capacity and default value. -/
theorem set_overwrites_in_place {T : Type} (a : dynamic_array T) (index : Nat) (v : T)
    (h : index < a.size) :
    (a.set index v).1 = true ∧
    (a.set index v).2.get index = v ∧
    (∀ j, j ≠ index → (a.set index v).2.get j = a.get j) ∧
    (a.set index v).2.size = a.size ∧
    (a.set index v).2.capacity = a.capacity ∧
    (a.set index v).2.default_value = a.default_value := by
  have hnot : ¬ index ≥ a.size := by omega
  simp only [dynamic_array.set, hnot, if_false, dynamic_array.get, store_slot]
  refine ⟨trivial, by simp, ?_, trivial, trivial, trivial⟩
  intro j hj
  rw [if_neg hj]

/-- C5, witness: overwriting index 1 of the buffer holding 10, 20, 30. -/
theorem set_overwrites_in_place_witness :
    1 < ((dynamic_array.make 4 (0 : Nat)).add_all [10, 20, 30]).2.size ∧
    ((((dynamic_array.make 4 (0 : Nat)).add_all [10, 20, 30]).2.set 1 99).2.get 1 = 99) :=
  ⟨by decide,
    (set_overwrites_in_place ((dynamic_array.make 4 (0 : Nat)).add_all [10, 20, 30]).2 1 99
      (by decide)).2.1⟩

/-! ## The buffer of a predictor loaded with given closing prices -/

theorem predictor_of_closes_data (model : PredictionModel) (closes : List ℚ)
    (hlen : closes.length ≤ 2147483648) :
    (predictor_of_closes model closes).data.size = closes.length ∧
    ∀ i (h : i < closes.length),
      ((predictor_of_closes model closes).data.get i).close = closes[i] := by
  have hinv := dynamic_array.add_all_inv (closes.map bar_with_close)
    (dynamic_array.make 50 (default : StockData)) (Nat.zero_le _) (by decide)
    (Or.inl (by simpa [dynamic_array.make] using hlen))
  obtain ⟨_, r2, _, _, _, r6⟩ := hinv
  have hsize : (predictor_of_closes model closes).data.size = closes.length := by
    simpa [dynamic_array.make] using r2
  refine ⟨hsize, ?_⟩
  intro i hi
  have hnot : ¬ i ≥ (predictor_of_closes model closes).data.size := by omega
  have h6 := r6 i (by simpa using hi)
  simp only [dynamic_array.make, Nat.zero_add, List.getElem_map] at h6
  simp only [dynamic_array.get, hnot, if_false]
  show (((dynamic_array.make 50 (default : StockData)).add_all
    (closes.map bar_with_close)).2.data i).close = closes[i]
  simp only [dynamic_array.make]
  rw [h6]
  rfl

theorem predictor_of_closes_model (model : PredictionModel) (closes : List ℚ) :
    (predictor_of_closes model closes).model = model := rfl

theorem predictor_of_closes_stats (model : PredictionModel) (closes : List ℚ) :
    (predictor_of_closes model closes).stats = default := rfl

/-! ## C6: linear regression on an exactly linear series -/

theorem sum_of_closes_linear (data : dynamic_array StockData) (a b : ℚ)
    (hline : ∀ i, i < data.size → (data.get i).close = a + b * i) :
    ∀ m, m ≤ data.size →
      for_loop 0 (fun i y_mean => y_mean + (data.get i).close) 0 m
        = m * a + b * (m * ((m : ℚ) - 1) / 2) := by
  intro m
  induction m with
  | zero => intro _; simp [for_loop]
  | succ k ih =>
    intro hk
    simp only [for_loop, Nat.zero_add]
    rw [ih (by omega), hline k (by omega)]
    push_cast
    ring

theorem regression_sums_linear (data : dynamic_array StockData) (a b x_mean : ℚ)
    (hline : ∀ i, i < data.size → (data.get i).close = a + b * i) :
    ∀ m, m ≤ data.size →
      (for_loop 0
        (fun i (s : ℚ × ℚ) =>
          (s.1 + ((i : ℚ) - x_mean) * ((data.get i).close - (a + b * x_mean)),
           s.2 + ((i : ℚ) - x_mean) * ((i : ℚ) - x_mean)))
        (0, 0) m).1
      = b *
      (for_loop 0
        (fun i (s : ℚ × ℚ) =>
          (s.1 + ((i : ℚ) - x_mean) * ((data.get i).close - (a + b * x_mean)),
           s.2 + ((i : ℚ) - x_mean) * ((i : ℚ) - x_mean)))
        (0, 0) m).2 := by
  intro m
  induction m with
  | zero => intro _; simp [for_loop]
  | succ k ih =>
    intro hk
    simp only [for_loop, Nat.zero_add]
    rw [ih (by omega), hline k (by omega)]
    ring

/-- The denominator of the regression is at least `x_mean ^ 2` after the first pass. -/
theorem regression_denominator_ge (data : dynamic_array StockData) (x_mean y_mean : ℚ) :
    ∀ m,
      x_mean * x_mean ≤
      (for_loop 0
        (fun i (s : ℚ × ℚ) =>
          (s.1 + ((i : ℚ) - x_mean) * ((data.get i).close - y_mean),
           s.2 + ((i : ℚ) - x_mean) * ((i : ℚ) - x_mean)))
        (0, 0) (m + 1)).2 := by
  intro m
  induction m with
  | zero => simp [for_loop]
  | succ k ih =>
    have hstep : ∀ n,
        (for_loop 0
          (fun i (s : ℚ × ℚ) =>
            (s.1 + ((i : ℚ) - x_mean) * ((data.get i).close - y_mean),
             s.2 + ((i : ℚ) - x_mean) * ((i : ℚ) - x_mean)))
          (0, 0) (n + 1)).2
        = (for_loop 0
          (fun i (s : ℚ × ℚ) =>
            (s.1 + ((i : ℚ) - x_mean) * ((data.get i).close - y_mean),
             s.2 + ((i : ℚ) - x_mean) * ((i : ℚ) - x_mean)))
          (0, 0) n).2 + (((0 + n : Nat) : ℚ) - x_mean) * (((0 + n : Nat) : ℚ) - x_mean) := by
      intro n; rfl
    rw [hstep (k + 1)]
    have hsq := mul_self_nonneg ((((0 + (k + 1) : Nat)) : ℚ) - x_mean)
    linarith

/-- C6: on `n ≥ 2` bars with `close[i] = a + b * i`, the `LINEAR_REGRESSION` model gives
slope `b`, intercept `a`, next prediction `a + b * n` and confidence `0.8`, the arithmetic
being exact. -/
theorem linear_regression_recovers_line (p : StockPredictor) (a b : ℚ)
    (hmodel : p.model = PredictionModel.LINEAR_REGRESSION) (hn : 2 ≤ p.data.size)
    (hline : ∀ i, i < p.data.size → (p.data.get i).close = a + b * i) :
    (calculate_predictions p).stats.slope = b ∧
    (calculate_predictions p).stats.intercept = a ∧
    (calculate_predictions p).stats.next_prediction = a + b * p.data.size ∧
    (calculate_predictions p).stats.confidence = 0.8 := by
  have hsize : ¬ p.data.size < 2 := by omega
  have hcast : ((p.data.size - 1 : Nat) : ℚ) = (p.data.size : ℚ) - 1 := by
    rw [Nat.cast_sub (by omega)]; simp
  have hpos : (0 : ℚ) < (p.data.size : ℚ) - 1 := by
    have : (2 : ℚ) ≤ (p.data.size : ℚ) := by exact_mod_cast hn
    linarith
  have hne : (p.data.size : ℚ) ≠ 0 := by
    have : (2 : ℚ) ≤ (p.data.size : ℚ) := by exact_mod_cast hn
    linarith
  have hmean : sum_of_closes p.data / (p.data.size : ℚ)
      = a + b * (((p.data.size - 1 : Nat) : ℚ) / 2.0) := by
    unfold sum_of_closes
    rw [sum_of_closes_linear p.data a b hline p.data.size (Nat.le_refl _), hcast]
    field_simp
    ring
  have hnum := regression_sums_linear p.data a b (((p.data.size - 1 : Nat) : ℚ) / 2.0) hline
    p.data.size (Nat.le_refl _)
  have hden := regression_denominator_ge p.data (((p.data.size - 1 : Nat) : ℚ) / 2.0)
    (a + b * (((p.data.size - 1 : Nat) : ℚ) / 2.0)) (p.data.size - 1)
  have hsucc : p.data.size - 1 + 1 = p.data.size := by omega
  rw [hsucc] at hden
  have hxpos : (0 : ℚ) < ((p.data.size - 1 : Nat) : ℚ) / 2.0 := by
    rw [hcast]; norm_num; linarith
  have hdenpos : (0 : ℚ) <
      (regression_sums p.data (((p.data.size - 1 : Nat) : ℚ) / 2.0)
        (a + b * (((p.data.size - 1 : Nat) : ℚ) / 2.0))).2 :=
    lt_of_lt_of_le (mul_pos hxpos hxpos) hden
  have hdenne := ne_of_gt hdenpos
  have hslope :
      (if (regression_sums p.data (((p.data.size - 1 : Nat) : ℚ) / 2.0)
            (a + b * (((p.data.size - 1 : Nat) : ℚ) / 2.0))).2 ≠ 0 then
        (regression_sums p.data (((p.data.size - 1 : Nat) : ℚ) / 2.0)
            (a + b * (((p.data.size - 1 : Nat) : ℚ) / 2.0))).1 /
        (regression_sums p.data (((p.data.size - 1 : Nat) : ℚ) / 2.0)
            (a + b * (((p.data.size - 1 : Nat) : ℚ) / 2.0))).2
      else 0) = b := by
    have hnum2 : (regression_sums p.data (((p.data.size - 1 : Nat) : ℚ) / 2.0)
          (a + b * (((p.data.size - 1 : Nat) : ℚ) / 2.0))).1
        = b * (regression_sums p.data (((p.data.size - 1 : Nat) : ℚ) / 2.0)
          (a + b * (((p.data.size - 1 : Nat) : ℚ) / 2.0))).2 := hnum
    rw [if_pos hdenne, hnum2, mul_div_assoc, div_self hdenne, mul_one]
  simp only [calculate_predictions, hsize, if_false, hmodel, hmean, hslope]
  refine ⟨trivial, ?_, ?_, trivial⟩
  · ring
  · rw [hcast]; ring

/-- The bars 1, 4, 7 lie on the line `1 + 3 * i`. -/
theorem closes_1_4_7_on_line :
    ∀ i, i < (predictor_of_closes PredictionModel.LINEAR_REGRESSION [1, 4, 7]).data.size →
      ((predictor_of_closes PredictionModel.LINEAR_REGRESSION [1, 4, 7]).data.get i).close
        = 1 + 3 * (i : ℚ) := by
  obtain ⟨hs, hc⟩ := predictor_of_closes_data PredictionModel.LINEAR_REGRESSION [1, 4, 7]
    (by decide)
  intro i hi
  rw [hs] at hi
  have hi3 : i < 3 := hi
  rw [hc i hi]
  interval_cases i
  · norm_num
  · norm_num
  · norm_num

/-- C6, witness: the bars 1, 4, 7 (`a = 1`, `b = 3`, `n = 3`) give slope 3, intercept 1 and
next prediction 10. -/
theorem linear_regression_recovers_line_witness :
    (predictor_of_closes PredictionModel.LINEAR_REGRESSION [1, 4, 7]).model
      = PredictionModel.LINEAR_REGRESSION ∧
    2 ≤ (predictor_of_closes PredictionModel.LINEAR_REGRESSION [1, 4, 7]).data.size ∧
    (calculate_predictions
      (predictor_of_closes PredictionModel.LINEAR_REGRESSION [1, 4, 7])).stats.slope = 3 ∧
    (calculate_predictions
      (predictor_of_closes PredictionModel.LINEAR_REGRESSION [1, 4, 7])).stats.intercept = 1 ∧
    (calculate_predictions
      (predictor_of_closes PredictionModel.LINEAR_REGRESSION [1, 4, 7])).stats.next_prediction
        = 1 + 3 * ((predictor_of_closes PredictionModel.LINEAR_REGRESSION [1, 4, 7]).data.size : ℚ) :=
  have hsize : 2 ≤ (predictor_of_closes PredictionModel.LINEAR_REGRESSION [1, 4, 7]).data.size := by
    rw [(predictor_of_closes_data PredictionModel.LINEAR_REGRESSION [1, 4, 7] (by decide)).1]
    decide
  have h := linear_regression_recovers_line
    (predictor_of_closes PredictionModel.LINEAR_REGRESSION [1, 4, 7]) 1 3 rfl hsize
    closes_1_4_7_on_line
  ⟨rfl, hsize, h.1, h.2.1, h.2.2.1⟩

/-! ## C7: the moving average is the mean of the last five closes -/

theorem ema_after_constant (data : dynamic_array StockData) (k : ℚ)
    (hconst : ∀ i, i < data.size → (data.get i).close = k) :
    ∀ m, m < data.size → ema_after data m = k := by
  intro m
  induction m with
  | zero =>
    intro h0
    simp only [ema_after, for_loop]
    exact hconst 0 h0
  | succ j ih =>
    intro hj
    have hprev : ema_after data j = k := ih (by omega)
    have hstep : ema_after data (j + 1)
        = 0.3 * (data.get (1 + j)).close + (1 - 0.3) * ema_after data j := rfl
    rw [hstep, hprev, hconst (1 + j) (by omega)]
    norm_num
    ring

/-- C8 (as amended): on `n ≥ 2` bars that all close at `k`, the `EXPONENTIAL_SMOOTHING` model
gives confidence `0.75` and, with the arithmetic read over the rationals, next prediction
exactly `k`. -/
theorem exponential_smoothing_fixed_point (p : StockPredictor) (k : ℚ)
    (hmodel : p.model = PredictionModel.EXPONENTIAL_SMOOTHING) (hn : 2 ≤ p.data.size)
    (hconst : ∀ i, i < p.data.size → (p.data.get i).close = k) :
    (calculate_predictions p).stats.next_prediction = k ∧
    (calculate_predictions p).stats.confidence = 0.75 := by
  have hsize : ¬ p.data.size < 2 := by omega
  simp only [calculate_predictions, hsize, if_false, hmodel]
  exact ⟨ema_after_constant p.data k hconst (p.data.size - 1) (by omega), trivial⟩

/-- The bars 10, 10, 10 all close at 10. -/
theorem closes_10_10_10_constant :
    ∀ i,
      i < (predictor_of_closes PredictionModel.EXPONENTIAL_SMOOTHING [10, 10, 10]).data.size →
      ((predictor_of_closes PredictionModel.EXPONENTIAL_SMOOTHING
        [10, 10, 10]).data.get i).close = 10 := by
  obtain ⟨hs, hc⟩ := predictor_of_closes_data PredictionModel.EXPONENTIAL_SMOOTHING
    [10, 10, 10] (by decide)
  intro i hi
  rw [hs] at hi
  have hi3 : i < 3 := hi
  rw [hc i hi]
  interval_cases i <;> rfl

/-- C8, witness: three bars closing at 10 give next prediction 10. -/
theorem exponential_smoothing_fixed_point_witness :
    (predictor_of_closes PredictionModel.EXPONENTIAL_SMOOTHING [10, 10, 10]).model
      = PredictionModel.EXPONENTIAL_SMOOTHING ∧
    2 ≤ (predictor_of_closes PredictionModel.EXPONENTIAL_SMOOTHING [10, 10, 10]).data.size ∧
    (calculate_predictions
      (predictor_of_closes PredictionModel.EXPONENTIAL_SMOOTHING
        [10, 10, 10])).stats.next_prediction = 10 :=
  have hsize : 2 ≤ (predictor_of_closes PredictionModel.EXPONENTIAL_SMOOTHING
      [10, 10, 10]).data.size := by
    rw [(predictor_of_closes_data PredictionModel.EXPONENTIAL_SMOOTHING [10, 10, 10]
      (by decide)).1]
    decide
  ⟨rfl, hsize,
    (exponential_smoothing_fixed_point
      (predictor_of_closes PredictionModel.EXPONENTIAL_SMOOTHING [10, 10, 10]) 10 rfl hsize
      closes_10_10_10_constant).1⟩

/-! ## C10: too few bars, nothing is computed -/

/-- C10: with fewer than 2 bars under any model, and with fewer than 5 bars under
`MOVING_AVERAGE`, `calculate_predictions` leaves the predictor, and with it the five result
fields, as it was; a default result stays all zero. -/
theorem insufficient_data_is_noop (p : StockPredictor)
    (h : p.data.size < 2 ∨ (p.model = PredictionModel.MOVING_AVERAGE ∧ p.data.size < 5)) :
    calculate_predictions p = p ∧
    (calculate_predictions p).stats.slope = p.stats.slope ∧
    (calculate_predictions p).stats.intercept = p.stats.intercept ∧
    (calculate_predictions p).stats.r_squared = p.stats.r_squared ∧
    (calculate_predictions p).stats.next_prediction = p.stats.next_prediction ∧
    (calculate_predictions p).stats.confidence = p.stats.confidence ∧
    (p.stats = default →
      (calculate_predictions p).stats.slope = 0 ∧
      (calculate_predictions p).stats.intercept = 0 ∧
      (calculate_predictions p).stats.r_squared = 0 ∧
      (calculate_predictions p).stats.next_prediction = 0 ∧
      (calculate_predictions p).stats.confidence = 0) := by
  have hnoop : calculate_predictions p = p := by
    unfold calculate_predictions
    by_cases h2 : p.data.size < 2
    · rw [if_pos h2]
    · rw [if_neg h2]
      rcases h with h | ⟨hm, h5⟩
      · exact absurd h h2
      · have hnot : ¬ p.data.size ≥ 5 := by omega
        simp only [hm, hnot, if_false]
  rw [hnoop]
  refine ⟨rfl, rfl, rfl, rfl, rfl, rfl, ?_⟩
  intro hd
  rw [hd]
  exact ⟨rfl, rfl, rfl, rfl, rfl⟩

/-- C10, witness: four bars under `MOVING_AVERAGE`. -/
theorem insufficient_data_is_noop_witness :
    ((predictor_of_closes PredictionModel.MOVING_AVERAGE [10, 20, 30, 40]).model
        = PredictionModel.MOVING_AVERAGE ∧
      (predictor_of_closes PredictionModel.MOVING_AVERAGE [10, 20, 30, 40]).data.size < 5) ∧
    (calculate_predictions
      (predictor_of_closes PredictionModel.MOVING_AVERAGE [10, 20, 30, 40])).stats.next_prediction
        = 0 ∧
    (calculate_predictions
      (predictor_of_closes PredictionModel.MOVING_AVERAGE [10, 20, 30, 40])).stats.confidence
        = 0 :=
  have hsize : (predictor_of_closes PredictionModel.MOVING_AVERAGE
      [10, 20, 30, 40]).data.size < 5 := by
    rw [(predictor_of_closes_data PredictionModel.MOVING_AVERAGE [10, 20, 30, 40]
      (by decide)).1]
    decide
  have h := (insufficient_data_is_noop
    (predictor_of_closes PredictionModel.MOVING_AVERAGE [10, 20, 30, 40])
    (Or.inr ⟨rfl, hsize⟩)).2.2.2.2.2.2 rfl
  ⟨⟨rfl, hsize⟩, h.2.2.2.1, h.2.2.2.2⟩

/-! ## C9: the series 10, 20, 30, 40, 50 -/

/-- Size and closes of the buffer loaded with 10, 20, 30, 40, 50, under any model. -/
theorem closes_10_to_50 (model : PredictionModel) :
    (predictor_of_closes model [10, 20, 30, 40, 50]).data.size = 5 ∧
    ((predictor_of_closes model [10, 20, 30, 40, 50]).data.get 0).close = 10 ∧
    ((predictor_of_closes model [10, 20, 30, 40, 50]).data.get 1).close = 20 ∧
    ((predictor_of_closes model [10, 20, 30, 40, 50]).data.get 2).close = 30 ∧
    ((predictor_of_closes model [10, 20, 30, 40, 50]).data.get 3).close = 40 ∧
    ((predictor_of_closes model [10, 20, 30, 40, 50]).data.get 4).close = 50 := by
  obtain ⟨hs, hc⟩ := predictor_of_closes_data model [10, 20, 30, 40, 50] (by decide)
  exact ⟨hs, hc 0 (by decide), hc 1 (by decide), hc 2 (by decide), hc 3 (by decide),
    hc 4 (by decide)⟩

/-- C9: on the buffer with closes 10, 20, 30, 40, 50 and an all-zero result,
`MOVING_AVERAGE` gives next prediction 30 and confidence 0.7; `LINEAR_REGRESSION` gives
slope 10, intercept 10, next prediction 60 and confidence 0.8; `EXPONENTIAL_SMOOTHING` takes
`ema` through 10, 13, 18.1, 24.67, 32.269 and gives next prediction 32.269 and
confidence 0.75. -/
theorem scenario_10_to_50 :
    (predictor_of_closes PredictionModel.MOVING_AVERAGE [10, 20, 30, 40, 50]).stats
      = { slope := 0, intercept := 0, r_squared := 0, next_prediction := 0, confidence := 0 } ∧
    ((calculate_predictions (predictor_of_closes PredictionModel.MOVING_AVERAGE
        [10, 20, 30, 40, 50])).stats.next_prediction = 30 ∧
      (calculate_predictions (predictor_of_closes PredictionModel.MOVING_AVERAGE
        [10, 20, 30, 40, 50])).stats.confidence = 0.7) ∧
    ((calculate_predictions (predictor_of_closes PredictionModel.LINEAR_REGRESSION
        [10, 20, 30, 40, 50])).stats.slope = 10 ∧
      (calculate_predictions (predictor_of_closes PredictionModel.LINEAR_REGRESSION
        [10, 20, 30, 40, 50])).stats.intercept = 10 ∧
      (calculate_predictions (predictor_of_closes PredictionModel.LINEAR_REGRESSION
        [10, 20, 30, 40, 50])).stats.next_prediction = 60 ∧
      (calculate_predictions (predictor_of_closes PredictionModel.LINEAR_REGRESSION
        [10, 20, 30, 40, 50])).stats.confidence = 0.8) ∧
    (ema_after (predictor_of_closes PredictionModel.EXPONENTIAL_SMOOTHING
        [10, 20, 30, 40, 50]).data 0 = 10 ∧
      ema_after (predictor_of_closes PredictionModel.EXPONENTIAL_SMOOTHING
        [10, 20, 30, 40, 50]).data 1 = 13 ∧
      ema_after (predictor_of_closes PredictionModel.EXPONENTIAL_SMOOTHING
        [10, 20, 30, 40, 50]).data 2 = 18.1 ∧
      ema_after (predictor_of_closes PredictionModel.EXPONENTIAL_SMOOTHING
        [10, 20, 30, 40, 50]).data 3 = 24.67 ∧
      ema_after (predictor_of_closes PredictionModel.EXPONENTIAL_SMOOTHING
        [10, 20, 30, 40, 50]).data 4 = 32.269 ∧
      (calculate_predictions (predictor_of_closes PredictionModel.EXPONENTIAL_SMOOTHING
        [10, 20, 30, 40, 50])).stats.next_prediction = 32.269 ∧
      (calculate_predictions (predictor_of_closes PredictionModel.EXPONENTIAL_SMOOTHING
        [10, 20, 30, 40, 50])).stats.confidence = 0.75) := by
  refine ⟨rfl, ?_, ?_, ?_⟩
  · obtain ⟨hs, h0, h1, h2, h3, h4⟩ := closes_10_to_50 PredictionModel.MOVING_AVERAGE
    simp only [calculate_predictions, hs, predictor_of_closes_model, last_five_sum, for_loop]
    norm_num [h0, h1, h2, h3, h4]
  · obtain ⟨hs, h0, h1, h2, h3, h4⟩ := closes_10_to_50 PredictionModel.LINEAR_REGRESSION
    simp only [calculate_predictions, hs, predictor_of_closes_model, sum_of_closes,
      regression_sums, for_loop]
    norm_num [h0, h1, h2, h3, h4]
  · obtain ⟨hs, h0, h1, h2, h3, h4⟩ := closes_10_to_50 PredictionModel.EXPONENTIAL_SMOOTHING
    simp only [calculate_predictions, hs, predictor_of_closes_model, ema_after, for_loop]
    norm_num [h0, h1, h2, h3, h4]

/-! ## The wrap of `capacity * 2` -/

/-- On a full buffer of `2^31` slots, `capacity * 2` wraps to 0: `resize(0)` cuts the size to
0, and `add` ends with size 1 and capacity 0. -/
theorem add_wraps_at_half_range {T : Type} [Inhabited T] (a : dynamic_array T) (v : T)
    (hs : a.size = 2147483648) (hc : a.capacity = 2147483648) :
    (a.add true v).2.size = 1 ∧ (a.add true v).2.capacity = 0 := by
  have hge : a.size ≥ a.capacity := by omega
  have hgrow : a.grown_capacity = 0 := by
    simp [dynamic_array.grown_capacity, hc, UINT_RANGE]
  rw [dynamic_array.add_true_eq, if_pos hge, hgrow]
  simp [dynamic_array.resize, dynamic_array.push_back, hs, UINT_RANGE]

/-! ## C11, C12: what a forecast call keeps of the earlier result -/

/-- The fields `calculate_predictions` does not assign keep their content: `r_squared`
always, `slope` and `intercept` unless the model is `LINEAR_REGRESSION`. -/
theorem calculate_predictions_keeps (p : StockPredictor) :
    (calculate_predictions p).stats.r_squared = p.stats.r_squared ∧
    (p.model ≠ PredictionModel.LINEAR_REGRESSION →
      (calculate_predictions p).stats.slope = p.stats.slope ∧
      (calculate_predictions p).stats.intercept = p.stats.intercept) := by
  unfold calculate_predictions
  by_cases h2 : p.data.size < 2
  · rw [if_pos h2]
    exact ⟨rfl, fun _ => ⟨rfl, rfl⟩⟩
  · rw [if_neg h2]
    cases hm : p.model with
    | LINEAR_REGRESSION => exact ⟨rfl, fun h => absurd rfl h⟩
    | MOVING_AVERAGE =>
      dsimp only
      split_ifs <;> exact ⟨rfl, fun _ => ⟨rfl, rfl⟩⟩
    | EXPONENTIAL_SMOOTHING => exact ⟨rfl, fun _ => ⟨rfl, rfl⟩⟩

/-- C11 (as amended): when the selected model has enough bars (`n ≥ 2`, and `n ≥ 5` under
`MOVING_AVERAGE`), the `next_prediction` and `confidence` that `calculate_predictions` stores,
and under `LINEAR_REGRESSION` also `slope` and `intercept`, are the same for any two prior
contents of the result record; `r_squared`, and under the other two models `slope` and
`intercept`, keep their prior content. -/
theorem assigned_fields_ignore_prior_result (p : StockPredictor) (s : PredictionStats)
    (hn : 2 ≤ p.data.size)
    (hma : p.model = PredictionModel.MOVING_AVERAGE → 5 ≤ p.data.size) :
    (calculate_predictions { p with stats := s }).stats.next_prediction
      = (calculate_predictions p).stats.next_prediction ∧
    (calculate_predictions { p with stats := s }).stats.confidence
      = (calculate_predictions p).stats.confidence ∧
    (p.model = PredictionModel.LINEAR_REGRESSION →
      (calculate_predictions { p with stats := s }).stats.slope
        = (calculate_predictions p).stats.slope ∧
      (calculate_predictions { p with stats := s }).stats.intercept
        = (calculate_predictions p).stats.intercept) ∧
    (calculate_predictions { p with stats := s }).stats.r_squared = s.r_squared ∧
    (p.model ≠ PredictionModel.LINEAR_REGRESSION →
      (calculate_predictions { p with stats := s }).stats.slope = s.slope ∧
      (calculate_predictions { p with stats := s }).stats.intercept = s.intercept) := by
  have h2 : ¬ p.data.size < 2 := by omega
  have hkeep := calculate_predictions_keeps { p with stats := s }
  refine ⟨?_, ?_, ?_, hkeep.1, hkeep.2⟩
  · unfold calculate_predictions
    simp only [h2, if_false]
    cases hm : p.model with
    | LINEAR_REGRESSION => rfl
    | MOVING_AVERAGE =>
      have h5 : p.data.size ≥ 5 := hma hm
      simp only [h5, if_true]
    | EXPONENTIAL_SMOOTHING => rfl
  · unfold calculate_predictions
    simp only [h2, if_false]
    cases hm : p.model with
    | LINEAR_REGRESSION => rfl
    | MOVING_AVERAGE =>
      have h5 : p.data.size ≥ 5 := hma hm
      simp only [h5, if_true]
    | EXPONENTIAL_SMOOTHING => rfl
  · intro hm
    unfold calculate_predictions
    simp only [h2, if_false, hm]
    exact ⟨trivial, trivial⟩

/-- The regression over 10, 20, 30, 40, 50 stores slope 10 and intercept 10. -/
theorem regression_of_10_to_50 :
    (calculate_predictions (predictor_of_closes PredictionModel.LINEAR_REGRESSION
        [10, 20, 30, 40, 50])).stats.slope = 10 ∧
    (calculate_predictions (predictor_of_closes PredictionModel.LINEAR_REGRESSION
        [10, 20, 30, 40, 50])).stats.intercept = 10 := by
  obtain ⟨hs, h0, h1, h2, h3, h4⟩ := closes_10_to_50 PredictionModel.LINEAR_REGRESSION
  simp only [calculate_predictions, hs, predictor_of_closes_model, sum_of_closes,
    regression_sums, for_loop]
  norm_num [h0, h1, h2, h3, h4]

/-- C11, witness: the five bars 10..50 under `MOVING_AVERAGE`, with a prior result whose
fields are all 1. -/
theorem assigned_fields_ignore_prior_result_witness :
    (2 ≤ (predictor_of_closes PredictionModel.MOVING_AVERAGE [10, 20, 30, 40, 50]).data.size ∧
      5 ≤ (predictor_of_closes PredictionModel.MOVING_AVERAGE [10, 20, 30, 40, 50]).data.size) ∧
    (calculate_predictions
      { predictor_of_closes PredictionModel.MOVING_AVERAGE [10, 20, 30, 40, 50] with
        stats := { slope := 1, intercept := 1, r_squared := 1, next_prediction := 1,
                   confidence := 1 } }).stats.next_prediction
      = (calculate_predictions
          (predictor_of_closes PredictionModel.MOVING_AVERAGE
            [10, 20, 30, 40, 50])).stats.next_prediction :=
  have hs := (closes_10_to_50 PredictionModel.MOVING_AVERAGE).1
  have h2 : 2 ≤ (predictor_of_closes PredictionModel.MOVING_AVERAGE
      [10, 20, 30, 40, 50]).data.size := by rw [hs]; decide
  have h5 : 5 ≤ (predictor_of_closes PredictionModel.MOVING_AVERAGE
      [10, 20, 30, 40, 50]).data.size := by rw [hs]
  ⟨⟨h2, h5⟩,
    (assigned_fields_ignore_prior_result
      (predictor_of_closes PredictionModel.MOVING_AVERAGE [10, 20, 30, 40, 50])
      { slope := 1, intercept := 1, r_squared := 1, next_prediction := 1, confidence := 1 }
      h2 (fun _ => h5)).1⟩

/-- C11, counterexample: same buffer (10, 20, 30, 40, 50) and same model `MOVING_AVERAGE`;
with the result record an earlier `LINEAR_REGRESSION` call left behind, the stored result
differs from the one stored over a default record. -/
theorem assigned_fields_ignore_prior_result_counterexample :
    ¬ ((calculate_predictions
        { predictor_of_closes PredictionModel.MOVING_AVERAGE [10, 20, 30, 40, 50] with
          stats := (calculate_predictions (predictor_of_closes
            PredictionModel.LINEAR_REGRESSION [10, 20, 30, 40, 50])).stats }).stats
      = (calculate_predictions
          (predictor_of_closes PredictionModel.MOVING_AVERAGE [10, 20, 30, 40, 50])).stats) := by
  intro h
  have hslope := congrArg PredictionStats.slope h
  have hleft := (calculate_predictions_keeps
    { predictor_of_closes PredictionModel.MOVING_AVERAGE [10, 20, 30, 40, 50] with
      stats := (calculate_predictions (predictor_of_closes
        PredictionModel.LINEAR_REGRESSION [10, 20, 30, 40, 50])).stats }).2
    (by intro hm; cases hm)
  have hright := (calculate_predictions_keeps
    (predictor_of_closes PredictionModel.MOVING_AVERAGE [10, 20, 30, 40, 50])).2
    (by intro hm; cases hm)
  rw [hleft.1, hright.1, regression_of_10_to_50.1] at hslope
  have hzero : (predictor_of_closes PredictionModel.MOVING_AVERAGE
      [10, 20, 30, 40, 50]).stats.slope = 0 := rfl
  rw [hzero] at hslope
  norm_num at hslope

/-- C12 (as amended): a `calculate_predictions` call made with `MOVING_AVERAGE` or
`EXPONENTIAL_SMOOTHING` leaves `slope` and `intercept` as they were before the call, so they
are zero after it when the result record was the default one before. -/
theorem other_models_keep_slope_intercept (p : StockPredictor)
    (hmodel : p.model = PredictionModel.MOVING_AVERAGE ∨
      p.model = PredictionModel.EXPONENTIAL_SMOOTHING) :
    (calculate_predictions p).stats.slope = p.stats.slope ∧
    (calculate_predictions p).stats.intercept = p.stats.intercept ∧
    (p.stats = default →
      (calculate_predictions p).stats.slope = 0 ∧
      (calculate_predictions p).stats.intercept = 0) := by
  have hne : p.model ≠ PredictionModel.LINEAR_REGRESSION := by
    rcases hmodel with h | h <;> rw [h] <;> intro hc <;> cases hc
  obtain ⟨hs, hi⟩ := (calculate_predictions_keeps p).2 hne
  refine ⟨hs, hi, ?_⟩
  intro hd
  rw [hs, hi, hd]
  exact ⟨rfl, rfl⟩

/-- C12, witness: the default predictor loaded with 10..50 under `EXPONENTIAL_SMOOTHING`. -/
theorem other_models_keep_slope_intercept_witness :
    ((predictor_of_closes PredictionModel.EXPONENTIAL_SMOOTHING [10, 20, 30, 40, 50]).model
        = PredictionModel.MOVING_AVERAGE ∨
      (predictor_of_closes PredictionModel.EXPONENTIAL_SMOOTHING [10, 20, 30, 40, 50]).model
        = PredictionModel.EXPONENTIAL_SMOOTHING) ∧
    (calculate_predictions (predictor_of_closes PredictionModel.EXPONENTIAL_SMOOTHING
      [10, 20, 30, 40, 50])).stats.slope = 0 ∧
    (calculate_predictions (predictor_of_closes PredictionModel.EXPONENTIAL_SMOOTHING
      [10, 20, 30, 40, 50])).stats.intercept = 0 :=
  ⟨Or.inr rfl,
    (other_models_keep_slope_intercept
      (predictor_of_closes PredictionModel.EXPONENTIAL_SMOOTHING [10, 20, 30, 40, 50])
      (Or.inr rfl)).2.2 rfl⟩

/-- C12, counterexample: on the bars 10..50, a `LINEAR_REGRESSION` call followed by the
selection of `EXPONENTIAL_SMOOTHING` and a second call leaves slope 10 and intercept 10,
not zero. -/
theorem other_models_keep_slope_intercept_counterexample :
    ¬ ((calculate_predictions
          { predictor_of_closes PredictionModel.EXPONENTIAL_SMOOTHING [10, 20, 30, 40, 50] with
            stats := (calculate_predictions (predictor_of_closes
              PredictionModel.LINEAR_REGRESSION [10, 20, 30, 40, 50])).stats }).stats.slope = 0 ∧
        (calculate_predictions
          { predictor_of_closes PredictionModel.EXPONENTIAL_SMOOTHING [10, 20, 30, 40, 50] with
            stats := (calculate_predictions (predictor_of_closes
              PredictionModel.LINEAR_REGRESSION [10, 20, 30, 40, 50])).stats }).stats.intercept
          = 0) := by
  rintro ⟨hslope, _⟩
  have hkeep := (calculate_predictions_keeps
    { predictor_of_closes PredictionModel.EXPONENTIAL_SMOOTHING [10, 20, 30, 40, 50] with
      stats := (calculate_predictions (predictor_of_closes
        PredictionModel.LINEAR_REGRESSION [10, 20, 30, 40, 50])).stats }).2
    (by intro hm; cases hm)
  rw [hkeep.1, regression_of_10_to_50.1] at hslope
  norm_num at hslope

/-! ## C13, C14: `size ≤ capacity` and the growth of one `add` -/

/-- The buffer `dynamic_array(2^31, 0)` after `2^31` calls of `add(0)` has the size, the
capacity and the default value of `half_range_full`, and holds 0 in every slot below its
size. -/
theorem half_range_full_is_reached :
    ((dynamic_array.make 2147483648 (0 : Nat)).add_all
        (List.replicate 2147483648 0)).2.size = 2147483648 ∧
    ((dynamic_array.make 2147483648 (0 : Nat)).add_all
        (List.replicate 2147483648 0)).2.capacity = 2147483648 ∧
    ((dynamic_array.make 2147483648 (0 : Nat)).add_all
        (List.replicate 2147483648 0)).2.default_value = 0 ∧
    ∀ i, i < 2147483648 →
      ((dynamic_array.make 2147483648 (0 : Nat)).add_all
        (List.replicate 2147483648 0)).2.data i = 0 := by
  have hinv := dynamic_array.add_all_inv (List.replicate 2147483648 (0 : Nat))
    (dynamic_array.make 2147483648 0) (Nat.zero_le _) (by decide)
    (Or.inl (by rw [List.length_replicate]; exact Nat.le_refl _))
  obtain ⟨_, r2, r3, r4, _, r6⟩ := hinv
  rw [List.length_replicate] at r2 r4
  refine ⟨r2, r4 (Nat.le_refl _), r3, ?_⟩
  intro i hi
  have h6 := r6 i (by rw [List.length_replicate]; exact hi)
  rw [List.getElem_replicate] at h6
  have hidx : (dynamic_array.make 2147483648 (0 : Nat)).size + i = i := Nat.zero_add i
  rw [hidx] at h6
  exact h6

/-- Outside the wrap of `capacity * 2`, every mutating method keeps `size ≤ capacity`, and
so does the constructor. -/
theorem size_le_capacity_kept {T : Type} [Inhabited T] (a : dynamic_array T)
    (hwf : a.size ≤ a.capacity) (hcap : a.capacity < UINT_RANGE) :
    (∀ (C : Nat) (d : T), (dynamic_array.make C d).size ≤ (dynamic_array.make C d).capacity) ∧
    (∀ v, (a.size < a.capacity ∨ a.capacity < 2147483648) →
      (a.add true v).2.size ≤ (a.add true v).2.capacity) ∧
    (∀ v, (a.add false v).2.size ≤ (a.add false v).2.capacity) ∧
    (∀ i, (a.remove i).2.size ≤ (a.remove i).2.capacity) ∧
    (∀ i v, (a.set i v).2.size ≤ (a.set i v).2.capacity) ∧
    a.clear.size ≤ a.clear.capacity := by
  refine ⟨fun C d => Nat.zero_le _, ?_, ?_, ?_, ?_, Nat.zero_le _⟩
  · intro v hroom
    obtain ⟨hs, hc, _⟩ := dynamic_array.add_step a v hwf hcap hroom
    rw [hs, hc]
    split_ifs <;> omega
  · intro v
    unfold dynamic_array.add
    by_cases hge : a.size ≥ a.capacity
    · rw [if_pos hge]
      exact hwf
    · rw [if_neg hge]
      unfold UINT_RANGE at hcap
      simp only [dynamic_array.push_back, UINT_RANGE]
      rw [Nat.mod_eq_of_lt (by omega)]
      omega
  · intro i
    unfold dynamic_array.remove
    split_ifs
    · exact hwf
    · show a.size - 1 ≤ a.capacity
      omega
  · intro i v
    unfold dynamic_array.set
    split_ifs <;> exact hwf

/-- C13, at the failing input: `half_range_full` satisfies `size ≤ capacity` with both values
below `2^32`; one more `add`, its allocation succeeding, ends with size 1 and capacity 0, so
`size ≤ capacity` no longer holds. -/
theorem add_breaks_size_le_capacity :
    half_range_full.size ≤ half_range_full.capacity ∧
    half_range_full.size < UINT_RANGE ∧ half_range_full.capacity < UINT_RANGE ∧
    (half_range_full.add true 0).1 = Completion.returned true ∧
    (half_range_full.add true 0).2.size = 1 ∧
    (half_range_full.add true 0).2.capacity = 0 ∧
    ¬ ((half_range_full.add true 0).2.size ≤ (half_range_full.add true 0).2.capacity) := by
  have hs : half_range_full.size = 2147483648 := rfl
  have hc : half_range_full.capacity = 2147483648 := rfl
  obtain ⟨h1, h0⟩ := add_wraps_at_half_range half_range_full 0 hs hc
  refine ⟨by rw [hs, hc], by rw [hs]; decide, by rw [hc]; decide,
    dynamic_array.add_true_returns _ _, h1, h0, ?_⟩
  rw [h1, h0]
  decide

/-- C14 (as amended): one `add` whose allocation succeeds, on a buffer with `capacity < 2^32`.
If `size < capacity` the capacity is unchanged; if `size = capacity < 2^31` the new capacity
is `2 * capacity` when `capacity > 0` and 1 when `capacity = 0`. In both cases `add` returns
true, the size grows by 1, the new value is read at index `size - 1`, and `get(i)` is
unchanged for every earlier `i`. -/
theorem add_growth_policy {T : Type} [Inhabited T] (a : dynamic_array T) (v : T)
    (hcap : a.capacity < UINT_RANGE)
    (hcase : a.size < a.capacity ∨ (a.size = a.capacity ∧ a.capacity < 2147483648)) :
    (a.size < a.capacity → (a.add true v).2.capacity = a.capacity) ∧
    (a.size = a.capacity →
      (a.add true v).2.capacity = if a.capacity > 0 then 2 * a.capacity else 1) ∧
    (a.add true v).1 = Completion.returned true ∧
    (a.add true v).2.size = a.size + 1 ∧
    (a.add true v).2.get ((a.add true v).2.size - 1) = v ∧
    ∀ i, i < a.size → (a.add true v).2.get i = a.get i := by
  have hwf : a.size ≤ a.capacity := by omega
  have hroom : a.size < a.capacity ∨ a.capacity < 2147483648 := by omega
  obtain ⟨hs, hc, _, hnew, hold⟩ := dynamic_array.add_step a v hwf hcap hroom
  refine ⟨?_, ?_, dynamic_array.add_true_returns a v, hs, ?_, ?_⟩
  · intro hlt
    rw [hc, if_pos hlt]
  · intro heq
    have hnlt : ¬ a.size < a.capacity := by omega
    rw [hc, if_neg hnlt]
  · have hidx : (a.add true v).2.size - 1 = a.size := by rw [hs]; omega
    have hnot : ¬ a.size ≥ (a.add true v).2.size := by rw [hs]; omega
    rw [hidx]
    unfold dynamic_array.get
    rw [if_neg hnot]
    exact hnew
  · intro i hi
    have hnot : ¬ i ≥ (a.add true v).2.size := by rw [hs]; omega
    have hnot2 : ¬ i ≥ a.size := by omega
    unfold dynamic_array.get
    rw [if_neg hnot, if_neg hnot2]
    exact hold i hi

/-- C14, witness: the full buffer of capacity 2 holding 10, 20 grows to capacity 4. -/
theorem add_growth_policy_witness :
    (((dynamic_array.make 2 (0 : Nat)).add_all [10, 20]).2.capacity < UINT_RANGE ∧
      (((dynamic_array.make 2 (0 : Nat)).add_all [10, 20]).2.size
          = ((dynamic_array.make 2 (0 : Nat)).add_all [10, 20]).2.capacity ∧
        ((dynamic_array.make 2 (0 : Nat)).add_all [10, 20]).2.capacity < 2147483648)) ∧
    ((((dynamic_array.make 2 (0 : Nat)).add_all [10, 20]).2.add true 30).2.capacity = 4 ∧
      (((dynamic_array.make 2 (0 : Nat)).add_all [10, 20]).2.add true 30).2.size = 3) :=
  ⟨⟨by decide, by decide, by decide⟩,
    (add_growth_policy ((dynamic_array.make 2 (0 : Nat)).add_all [10, 20]).2 30 (by decide)
      (Or.inr ⟨by decide, by decide⟩)).2.1 (by decide),
    (add_growth_policy ((dynamic_array.make 2 (0 : Nat)).add_all [10, 20]).2 30 (by decide)
      (Or.inr ⟨by decide, by decide⟩)).2.2.2.1⟩

/-- C14, counterexample: on `half_range_full`, where `size = capacity = 2^31 > 0`, one more
`add` does not leave capacity `2 * capacity`, and the size does not grow by 1. -/
theorem add_growth_policy_counterexample :
    half_range_full.size = half_range_full.capacity ∧ half_range_full.capacity > 0 ∧
    ¬ ((half_range_full.add true 0).2.capacity = 2 * half_range_full.capacity) ∧
    ¬ ((half_range_full.add true 0).2.size = half_range_full.size + 1) := by
  have hs : half_range_full.size = 2147483648 := rfl
  have hc : half_range_full.capacity = 2147483648 := rfl
  obtain ⟨h1, h0⟩ := add_wraps_at_half_range half_range_full 0 hs hc
  refine ⟨by rw [hs, hc], by rw [hc]; decide, ?_, ?_⟩
  · rw [h0, hc]; decide
  · rw [h1, hs]; decide

/-! ## C15: `clear` keeps the storage -/

/-- C15: `clear()` sets the size to 0 and keeps capacity and default value; afterwards
`empty()` is true, `get(i)` is the default value for every `i`, and any run of up to
`capacity` calls of `add` returns true each time and leaves the capacity as it was. -/
theorem clear_keeps_storage {T : Type} [Inhabited T] (a : dynamic_array T)
    (hcap : a.capacity < UINT_RANGE) :
    a.clear.size = 0 ∧ a.clear.capacity = a.capacity ∧
    a.clear.default_value = a.default_value ∧
    a.clear.empty = true ∧
    (∀ i, a.clear.get i = a.default_value) ∧
    ∀ vs : List T, vs.length ≤ a.capacity →
      (a.clear.add_all vs).1 = List.replicate vs.length (Completion.returned true) ∧
      (a.clear.add_all vs).2.capacity = a.capacity ∧
      (a.clear.add_all vs).2.size = vs.length := by
  have hget : ∀ i, a.clear.get i = a.default_value := by
    intro i
    unfold dynamic_array.get
    exact if_pos (Nat.zero_le i)
  refine ⟨rfl, rfl, rfl, rfl, hget, ?_⟩
  intro vs hlen
  have hroom : a.clear.size + vs.length ≤ a.clear.capacity := by
    show 0 + vs.length ≤ a.capacity
    omega
  obtain ⟨r1, r2, _, r4, _, _⟩ := dynamic_array.add_all_inv vs a.clear (Nat.zero_le _) hcap
    (Or.inr hroom)
  refine ⟨r1, r4 hroom, ?_⟩
  rw [r2]
  show 0 + vs.length = vs.length
  omega

/-- C15, witness: the buffer of capacity 4 that held 10, 20, 30 takes 1, 2, 3, 4 after
`clear()` without growing. -/
theorem clear_keeps_storage_witness :
    ((dynamic_array.make 4 (0 : Nat)).add_all [10, 20, 30]).2.capacity < UINT_RANGE ∧
    (((dynamic_array.make 4 (0 : Nat)).add_all [10, 20, 30]).2.clear.add_all
      [1, 2, 3, 4]).2.capacity = 4 ∧
    ((dynamic_array.make 4 (0 : Nat)).add_all [10, 20, 30]).2.clear.get 0 = 0 :=
  ⟨by decide,
    ((clear_keeps_storage ((dynamic_array.make 4 (0 : Nat)).add_all [10, 20, 30]).2
      (by decide)).2.2.2.2.2 [1, 2, 3, 4] (by decide)).2.1,
    (clear_keeps_storage ((dynamic_array.make 4 (0 : Nat)).add_all [10, 20, 30]).2
      (by decide)).2.2.2.2.1 0⟩

/-! ## C16: `last` -/

/-- C16: for a buffer whose size is an `unsigned int`, `last()` equals `get(size - 1)` with
the subtraction taken modulo `2^32`; on a non-empty buffer that is the slot of highest valid
index, which holds the value of an `add` just made, and on an empty buffer both sides are
the default value. -/
theorem last_is_get_of_size_minus_one {T : Type} [Inhabited T] (a : dynamic_array T)
    (hsize : a.size < UINT_RANGE) :
    a.last = a.get ((a.size + UINT_RANGE - 1) % UINT_RANGE) ∧
    (a.size > 0 → a.last = a.data (a.size - 1) ∧ a.last = a.get (a.size - 1)) ∧
    (a.size = 0 →
      a.last = a.default_value ∧
      a.get ((a.size + UINT_RANGE - 1) % UINT_RANGE) = a.default_value) ∧
    (∀ v, a.size ≤ a.capacity → a.capacity < UINT_RANGE →
      (a.size < a.capacity ∨ a.capacity < 2147483648) → (a.add true v).2.last = v) := by
  unfold UINT_RANGE at hsize
  refine ⟨?_, ?_, ?_, ?_⟩
  · unfold dynamic_array.last dynamic_array.get UINT_RANGE
    by_cases h0 : a.size > 0
    · have hidx : (a.size + 4294967296 - 1) % 4294967296 = a.size - 1 := by omega
      have hnot : ¬ a.size - 1 ≥ a.size := by omega
      rw [if_pos h0, hidx, if_neg hnot]
    · have hz : a.size = 0 := by omega
      have hge : (a.size + 4294967296 - 1) % 4294967296 ≥ a.size := by omega
      rw [if_neg h0, if_pos hge]
  · intro h0
    have hnot : ¬ a.size - 1 ≥ a.size := by omega
    unfold dynamic_array.last dynamic_array.get
    rw [if_pos h0, if_neg hnot]
    exact ⟨rfl, rfl⟩
  · intro hz
    have h0 : ¬ a.size > 0 := by omega
    have hge : (a.size + UINT_RANGE - 1) % UINT_RANGE ≥ a.size := by omega
    unfold dynamic_array.last dynamic_array.get
    rw [if_neg h0, if_pos hge]
    exact ⟨rfl, rfl⟩
  · intro v hwf hcap hroom
    obtain ⟨hs, _, _, hnew, _⟩ := dynamic_array.add_step a v hwf hcap hroom
    have hpos : (a.add true v).2.size > 0 := by rw [hs]; omega
    have hidx : (a.add true v).2.size - 1 = a.size := by rw [hs]; omega
    unfold dynamic_array.last
    rw [if_pos hpos, hidx]
    exact hnew

/-- C16, witness: the last element of the buffer holding 10, 20, 30 is 30. -/
theorem last_is_get_of_size_minus_one_witness :
    ((dynamic_array.make 4 (0 : Nat)).add_all [10, 20, 30]).2.size < UINT_RANGE ∧
    ((dynamic_array.make 4 (0 : Nat)).add_all [10, 20, 30]).2.last
      = ((dynamic_array.make 4 (0 : Nat)).add_all [10, 20, 30]).2.get
          ((((dynamic_array.make 4 (0 : Nat)).add_all [10, 20, 30]).2.size + UINT_RANGE - 1)
            % UINT_RANGE) ∧
    ((dynamic_array.make 4 (0 : Nat)).add_all [10, 20, 30]).2.last = 30 :=
  ⟨by decide,
    (last_is_get_of_size_minus_one ((dynamic_array.make 4 (0 : Nat)).add_all [10, 20, 30]).2
      (by decide)).1,
    by decide⟩

/-! ## C17: `min` and `max` -/

/-- The scan of `min()` after `m` passes holds a value of some slot `0..m` that is below or
equal to every slot `0..m`. -/
theorem min_scan {T : Type} [LinearOrder T] (f : Nat → T) (m : Nat) :
    (∃ j, j ≤ m ∧ for_loop 1 (fun i min_val => if f i < min_val then f i else min_val) (f 0) m
        = f j) ∧
    ∀ i, i ≤ m →
      for_loop 1 (fun i min_val => if f i < min_val then f i else min_val) (f 0) m ≤ f i := by
  induction m with
  | zero =>
    refine ⟨⟨0, Nat.le_refl 0, rfl⟩, ?_⟩
    intro i hi
    have : i = 0 := by omega
    subst this
    exact le_refl _
  | succ k ih =>
    obtain ⟨⟨j, hj, hv⟩, hle⟩ := ih
    have hidx : 1 + k = k + 1 := by omega
    simp only [for_loop, hidx]
    by_cases hlt : f (k + 1) <
        for_loop 1 (fun i min_val => if f i < min_val then f i else min_val) (f 0) k
    · rw [if_pos hlt]
      refine ⟨⟨k + 1, Nat.le_refl _, rfl⟩, ?_⟩
      intro i hi
      by_cases hik : i = k + 1
      · rw [hik]
      · exact le_trans (le_of_lt hlt) (hle i (by omega))
    · rw [if_neg hlt]
      refine ⟨⟨j, by omega, hv⟩, ?_⟩
      intro i hi
      by_cases hik : i = k + 1
      · rw [hik]; exact not_lt.mp hlt
      · exact hle i (by omega)

/-- The scan of `max()` after `m` passes holds a value of some slot `0..m` that is above or
equal to every slot `0..m`. -/
theorem max_scan {T : Type} [LinearOrder T] (f : Nat → T) (m : Nat) :
    (∃ j, j ≤ m ∧ for_loop 1 (fun i max_val => if f i > max_val then f i else max_val) (f 0) m
        = f j) ∧
    ∀ i, i ≤ m →
      f i ≤ for_loop 1 (fun i max_val => if f i > max_val then f i else max_val) (f 0) m := by
  induction m with
  | zero =>
    refine ⟨⟨0, Nat.le_refl 0, rfl⟩, ?_⟩
    intro i hi
    have : i = 0 := by omega
    subst this
    exact le_refl _
  | succ k ih =>
    obtain ⟨⟨j, hj, hv⟩, hle⟩ := ih
    have hidx : 1 + k = k + 1 := by omega
    simp only [for_loop, hidx]
    by_cases hlt : f (k + 1) >
        for_loop 1 (fun i max_val => if f i > max_val then f i else max_val) (f 0) k
    · rw [if_pos hlt]
      refine ⟨⟨k + 1, Nat.le_refl _, rfl⟩, ?_⟩
      intro i hi
      by_cases hik : i = k + 1
      · rw [hik]
      · exact le_trans (hle i (by omega)) (le_of_lt hlt)
    · rw [if_neg hlt]
      refine ⟨⟨j, by omega, hv⟩, ?_⟩
      intro i hi
      by_cases hik : i = k + 1
      · rw [hik]; exact not_lt.mp hlt
      · exact hle i (by omega)

/-- C17: over a totally ordered element type, `min()` and `max()` of an empty buffer are the
default value; of a non-empty buffer, `min()` is `get(j)` for some `j < size` and is below or
equal to `get(i)` for every `i < size`, and `max()` is `get(j)` for some `j < size` and is
above or equal to `get(i)` for every `i < size`. -/
theorem min_max_scan_the_buffer {T : Type} [LinearOrder T] (a : dynamic_array T) :
    (a.size = 0 → a.min = a.default_value ∧ a.max = a.default_value) ∧
    (a.size ≠ 0 →
      (∃ j, j < a.size ∧ a.min = a.get j) ∧ (∀ i, i < a.size → a.min ≤ a.get i) ∧
      (∃ j, j < a.size ∧ a.max = a.get j) ∧ (∀ i, i < a.size → a.get i ≤ a.max)) := by
  have hget : ∀ i, i < a.size → a.get i = a.data i := by
    intro i hi
    have hnot : ¬ i ≥ a.size := by omega
    unfold dynamic_array.get
    rw [if_neg hnot]
  refine ⟨?_, ?_⟩
  · intro h0
    unfold dynamic_array.min dynamic_array.max
    rw [if_pos h0, if_pos h0]
    exact ⟨rfl, rfl⟩
  · intro hne
    obtain ⟨⟨j, hj, hjv⟩, hmin⟩ := min_scan a.data (a.size - 1)
    obtain ⟨⟨k, hk, hkv⟩, hmax⟩ := max_scan a.data (a.size - 1)
    have hmin_eq : a.min
        = for_loop 1 (fun i min_val => if a.data i < min_val then a.data i else min_val)
            (a.data 0) (a.size - 1) := by
      unfold dynamic_array.min
      rw [if_neg hne]
    have hmax_eq : a.max
        = for_loop 1 (fun i max_val => if a.data i > max_val then a.data i else max_val)
            (a.data 0) (a.size - 1) := by
      unfold dynamic_array.max
      rw [if_neg hne]
    refine ⟨⟨j, by omega, ?_⟩, ?_, ⟨k, by omega, ?_⟩, ?_⟩
    · rw [hmin_eq, hjv, hget j (by omega)]
    · intro i hi
      rw [hmin_eq, hget i hi]
      exact hmin i (by omega)
    · rw [hmax_eq, hkv, hget k (by omega)]
    · intro i hi
      rw [hmax_eq, hget i hi]
      exact hmax i (by omega)

/-- C17, witness: the buffer holding 30, 10, 20 has minimum 10 and maximum 30. -/
theorem min_max_scan_the_buffer_witness :
    ((dynamic_array.make 4 (0 : Nat)).add_all [30, 10, 20]).2.size ≠ 0 ∧
    (∀ i, i < ((dynamic_array.make 4 (0 : Nat)).add_all [30, 10, 20]).2.size →
      ((dynamic_array.make 4 (0 : Nat)).add_all [30, 10, 20]).2.min
        ≤ ((dynamic_array.make 4 (0 : Nat)).add_all [30, 10, 20]).2.get i) ∧
    ((dynamic_array.make 4 (0 : Nat)).add_all [30, 10, 20]).2.min = 10 ∧
    ((dynamic_array.make 4 (0 : Nat)).add_all [30, 10, 20]).2.max = 30 :=
  ⟨by decide,
    ((min_max_scan_the_buffer ((dynamic_array.make 4 (0 : Nat)).add_all [30, 10, 20]).2).2
      (by decide)).2.1,
    by decide, by decide⟩

/-! ## C18: `add` when the allocation fails -/

/-- No call of `add` returns false. -/
theorem add_never_returns_false {T : Type} [Inhabited T] (heap_ok : Bool)
    (a : dynamic_array T) (v : T) : (a.add heap_ok v).1 ≠ Completion.returned false := by
  cases heap_ok with
  | true =>
    rw [dynamic_array.add_true_returns]
    intro h
    cases h
  | false =>
    unfold dynamic_array.add
    by_cases hge : a.size ≥ a.capacity
    · rw [if_pos hge]
      intro h
      cases h
    · rw [if_neg hge]
      intro h
      cases h

/-- When the allocation of a growing `add` fails, the call ends with `std::bad_alloc` and
the buffer is as before. -/
theorem add_failed_allocation {T : Type} [Inhabited T] (a : dynamic_array T) (v : T)
    (hfull : a.size ≥ a.capacity) : a.add false v = (Completion.bad_alloc, a) := by
  unfold dynamic_array.add
  rw [if_pos hfull]
  rfl

/-- C18, at the failing input: on the empty buffer `dynamic_array(0, 0)`, `add(5)` with its
allocation failing does not return false; it ends with `std::bad_alloc`, the buffer being as
before. -/
theorem add_throws_on_failed_allocation :
    ((dynamic_array.make 0 (0 : Nat)).add false 5).1 ≠ Completion.returned false ∧
    ((dynamic_array.make 0 (0 : Nat)).add false 5).1 = Completion.bad_alloc ∧
    ((dynamic_array.make 0 (0 : Nat)).add false 5).2 = dynamic_array.make 0 (0 : Nat) :=
  ⟨by decide, rfl, rfl⟩

/-! ## C20: `reverse_data_order` -/

/-- A `set` at an index below the size stores into that one slot and nothing else. -/
theorem set_within_size {T : Type} (a : dynamic_array T) (i : Nat) (v : T) (h : i < a.size) :
    (a.set i v).2.size = a.size ∧ (a.set i v).2.capacity = a.capacity ∧
    (a.set i v).2.default_value = a.default_value ∧
    (a.set i v).2.data = store_slot a.data i v := by
  have hnot : ¬ i ≥ a.size := by omega
  unfold dynamic_array.set
  rw [if_neg hnot]
  exact ⟨rfl, rfl, rfl, rfl⟩

/-- The loop of `reverse_data_order` after `k` passes, `2 * k ≤ size`: the first `k` and the
last `k` slots are mirrored, the slots between are as before. -/
theorem reverse_loop_inv (d0 : dynamic_array StockData) (k : Nat) (hk : 2 * k ≤ d0.size) :
    (for_loop 0
        (fun i d =>
          let temp := d.get i
          let d1 := (d.set i (d.get (d0.size - 1 - i))).2
          (d1.set (d0.size - 1 - i) temp).2)
        d0 k).size = d0.size ∧
    (for_loop 0
        (fun i d =>
          let temp := d.get i
          let d1 := (d.set i (d.get (d0.size - 1 - i))).2
          (d1.set (d0.size - 1 - i) temp).2)
        d0 k).capacity = d0.capacity ∧
    (for_loop 0
        (fun i d =>
          let temp := d.get i
          let d1 := (d.set i (d.get (d0.size - 1 - i))).2
          (d1.set (d0.size - 1 - i) temp).2)
        d0 k).default_value = d0.default_value ∧
    ∀ j,
      (for_loop 0
        (fun i d =>
          let temp := d.get i
          let d1 := (d.set i (d.get (d0.size - 1 - i))).2
          (d1.set (d0.size - 1 - i) temp).2)
        d0 k).data j
      = if j < k ∨ (d0.size - k ≤ j ∧ j < d0.size) then d0.data (d0.size - 1 - j)
        else d0.data j := by
  induction k with
  | zero =>
    refine ⟨rfl, rfl, rfl, ?_⟩
    intro j
    have hno : ¬ (j < 0 ∨ (d0.size - 0 ≤ j ∧ j < d0.size)) := by omega
    rw [if_neg hno]
    rfl
  | succ k ih =>
    obtain ⟨hs, hc, hd, hdata⟩ := ih (by omega)
    generalize hloop : for_loop 0
        (fun i d =>
          let temp := d.get i
          let d1 := (d.set i (d.get (d0.size - 1 - i))).2
          (d1.set (d0.size - 1 - i) temp).2)
        d0 k = d at hs hc hd hdata
    have hstep : for_loop 0
        (fun i d =>
          let temp := d.get i
          let d1 := (d.set i (d.get (d0.size - 1 - i))).2
          (d1.set (d0.size - 1 - i) temp).2)
        d0 (k + 1)
        = ((d.set k (d.get (d0.size - 1 - k))).2.set (d0.size - 1 - k) (d.get k)).2 := by
      rw [← hloop]
      simp only [for_loop, Nat.zero_add]
    rw [hstep]
    have hk1 : ¬ k ≥ d.size := by omega
    have hk2 : ¬ d0.size - 1 - k ≥ d.size := by omega
    obtain ⟨e1s, e1c, e1d, e1data⟩ := set_within_size d k (d.get (d0.size - 1 - k))
      (by omega)
    obtain ⟨e2s, e2c, e2d, e2data⟩ := set_within_size (d.set k (d.get (d0.size - 1 - k))).2
      (d0.size - 1 - k) (d.get k) (by rw [e1s]; omega)
    refine ⟨by rw [e2s, e1s, hs], by rw [e2c, e1c, hc], by rw [e2d, e1d, hd], ?_⟩
    intro j
    rw [e2data, e1data]
    have hgk : d.get k = d0.data k := by
      unfold dynamic_array.get
      rw [if_neg hk1, hdata k]
      have hno : ¬ (k < k ∨ (d0.size - k ≤ k ∧ k < d0.size)) := by omega
      rw [if_neg hno]
    have hgm : d.get (d0.size - 1 - k) = d0.data (d0.size - 1 - k) := by
      unfold dynamic_array.get
      rw [if_neg hk2, hdata (d0.size - 1 - k)]
      have hno : ¬ (d0.size - 1 - k < k ∨
          (d0.size - k ≤ d0.size - 1 - k ∧ d0.size - 1 - k < d0.size)) := by omega
      rw [if_neg hno]
    unfold store_slot
    rw [hgk, hgm]
    by_cases hj1 : j = d0.size - 1 - k
    · have hyes : j < k + 1 ∨ (d0.size - (k + 1) ≤ j ∧ j < d0.size) := by omega
      have hidx : d0.size - 1 - j = k := by omega
      rw [if_pos hj1, if_pos hyes, hidx]
    · rw [if_neg hj1]
      by_cases hj2 : j = k
      · have hyes : j < k + 1 ∨ (d0.size - (k + 1) ≤ j ∧ j < d0.size) := by omega
        rw [if_pos hj2, if_pos hyes, hj2]
      · rw [if_neg hj2, hdata j]
        by_cases hj3 : j < k ∨ (d0.size - k ≤ j ∧ j < d0.size)
        · have hyes : j < k + 1 ∨ (d0.size - (k + 1) ≤ j ∧ j < d0.size) := by omega
          rw [if_pos hj3, if_pos hyes]
        · have hno : ¬ (j < k + 1 ∨ (d0.size - (k + 1) ≤ j ∧ j < d0.size)) := by omega
          rw [if_neg hj3, if_neg hno]

/-- What `reverse_data_order` leaves in the buffer. -/
theorem reverse_data_order_data (p : StockPredictor) :
    (reverse_data_order p).data.size = p.data.size ∧
    (reverse_data_order p).data.default_value = p.data.default_value ∧
    ∀ i, i < p.data.size →
      (reverse_data_order p).data.get i = p.data.get (p.data.size - 1 - i) := by
  obtain ⟨hs, _, hd, hdata⟩ := reverse_loop_inv p.data (p.data.size / 2) (by omega)
  refine ⟨hs, hd, ?_⟩
  intro i hi
  have hnot : ¬ i ≥ (reverse_data_order p).data.size := by
    have : (reverse_data_order p).data.size = p.data.size := hs
    omega
  have hnot2 : ¬ p.data.size - 1 - i ≥ p.data.size := by omega
  have hdi : (reverse_data_order p).data.data i
      = if i < p.data.size / 2 ∨ (p.data.size - p.data.size / 2 ≤ i ∧ i < p.data.size)
        then p.data.data (p.data.size - 1 - i) else p.data.data i := hdata i
  unfold dynamic_array.get
  rw [if_neg hnot, if_neg hnot2, hdi]
  by_cases hflip : i < p.data.size / 2 ∨ (p.data.size - p.data.size / 2 ≤ i ∧ i < p.data.size)
  · rw [if_pos hflip]
  · have hmid : p.data.size - 1 - i = i := by omega
    rw [if_neg hflip, hmid]

/-- C20: `reverse_data_order` keeps the size `n` of the buffer and makes `get(i)` the old
`get(n - 1 - i)` for every `i < n`; applied twice it gives back the old `get(i)` for
every `i`. -/
theorem reverse_data_order_reverses (p : StockPredictor) :
    (reverse_data_order p).data.size = p.data.size ∧
    (∀ i, i < p.data.size →
      (reverse_data_order p).data.get i = p.data.get (p.data.size - 1 - i)) ∧
    (reverse_data_order (reverse_data_order p)).data.size = p.data.size ∧
    ∀ i, (reverse_data_order (reverse_data_order p)).data.get i = p.data.get i := by
  obtain ⟨hs1, hd1, hr1⟩ := reverse_data_order_data p
  obtain ⟨hs2, hd2, hr2⟩ := reverse_data_order_data (reverse_data_order p)
  refine ⟨hs1, hr1, by rw [hs2, hs1], ?_⟩
  intro i
  by_cases hi : i < p.data.size
  · rw [hr2 i (by rw [hs1]; exact hi), hs1, hr1 _ (by omega)]
    have hidx : p.data.size - 1 - (p.data.size - 1 - i) = i := by omega
    rw [hidx]
  · have hge1 : i ≥ (reverse_data_order (reverse_data_order p)).data.size := by
      rw [hs2, hs1]; omega
    have hge2 : i ≥ p.data.size := by omega
    unfold dynamic_array.get
    rw [if_pos hge1, if_pos hge2, hd2, hd1]

/-! ## The regression loops as finite sums -/

theorem sum_loop_eq_sum (f : Nat → ℚ) (n : Nat) :
    for_loop 0 (fun i y => y + f i) 0 n = Finset.sum (Finset.range n) f := by
  induction n with
  | zero => rfl
  | succ k ih =>
    rw [Finset.sum_range_succ, ← ih]
    simp only [for_loop, Nat.zero_add]

theorem sum_of_closes_eq_sum (data : dynamic_array StockData) :
    sum_of_closes data = Finset.sum (Finset.range data.size) (fun i => (data.get i).close) :=
  sum_loop_eq_sum (fun i => (data.get i).close) data.size

theorem regression_loop_eq_sums (data : dynamic_array StockData) (x_mean y_mean : ℚ)
    (n : Nat) :
    for_loop 0
      (fun i (s : ℚ × ℚ) =>
        (s.1 + ((i : ℚ) - x_mean) * ((data.get i).close - y_mean),
         s.2 + ((i : ℚ) - x_mean) * ((i : ℚ) - x_mean)))
      (0, 0) n
    = (Finset.sum (Finset.range n)
          (fun i => ((i : ℚ) - x_mean) * ((data.get i).close - y_mean)),
       Finset.sum (Finset.range n) (fun i => ((i : ℚ) - x_mean) * ((i : ℚ) - x_mean))) := by
  induction n with
  | zero => rfl
  | succ k ih =>
    rw [Finset.sum_range_succ, Finset.sum_range_succ]
    simp only [for_loop, Nat.zero_add, ih]

theorem regression_sums_eq_sums (data : dynamic_array StockData) (x_mean y_mean : ℚ) :
    regression_sums data x_mean y_mean
    = (Finset.sum (Finset.range data.size)
          (fun i => ((i : ℚ) - x_mean) * ((data.get i).close - y_mean)),
       Finset.sum (Finset.range data.size)
          (fun i => ((i : ℚ) - x_mean) * ((i : ℚ) - x_mean))) :=
  regression_loop_eq_sums data x_mean y_mean data.size

/-- The sum of the indices below `n`. -/
theorem sum_of_indices (n : Nat) :
    Finset.sum (Finset.range n) (fun i => (i : ℚ)) = (n : ℚ) * ((n : ℚ) - 1) / 2 := by
  induction n with
  | zero => simp
  | succ k ih =>
    rw [Finset.sum_range_succ, ih]
    push_cast
    ring

/-- The sum of the squared distances of the indices below `n` from `x`. -/
theorem sum_of_squared_distances (x : ℚ) (n : Nat) :
    Finset.sum (Finset.range n) (fun i => ((i : ℚ) - x) * ((i : ℚ) - x))
      = (n : ℚ) * x ^ 2 - x * ((n : ℚ) * ((n : ℚ) - 1))
        + (n : ℚ) * ((n : ℚ) - 1) * (2 * (n : ℚ) - 1) / 6 := by
  induction n with
  | zero => simp
  | succ k ih =>
    rw [Finset.sum_range_succ, ih]
    push_cast
    ring

/-- What the `LINEAR_REGRESSION` case stores, with `x_mean`, `y_mean`, numerator and
denominator as the source computes them. -/
theorem linear_regression_stores (p : StockPredictor)
    (hmodel : p.model = PredictionModel.LINEAR_REGRESSION) (hn : 2 ≤ p.data.size) :
    0 < (regression_sums p.data (((p.data.size - 1 : Nat) : ℚ) / 2.0)
          (sum_of_closes p.data / (p.data.size : ℚ))).2 ∧
    (calculate_predictions p).stats.slope
      = (regression_sums p.data (((p.data.size - 1 : Nat) : ℚ) / 2.0)
          (sum_of_closes p.data / (p.data.size : ℚ))).1
        / (regression_sums p.data (((p.data.size - 1 : Nat) : ℚ) / 2.0)
          (sum_of_closes p.data / (p.data.size : ℚ))).2 ∧
    (calculate_predictions p).stats.intercept
      = sum_of_closes p.data / (p.data.size : ℚ)
        - (calculate_predictions p).stats.slope * (((p.data.size - 1 : Nat) : ℚ) / 2.0) := by
  have hsize : ¬ p.data.size < 2 := by omega
  have hcast : ((p.data.size - 1 : Nat) : ℚ) = (p.data.size : ℚ) - 1 := by
    rw [Nat.cast_sub (by omega)]; simp
  have hxpos : (0 : ℚ) < ((p.data.size - 1 : Nat) : ℚ) / 2.0 := by
    have : (2 : ℚ) ≤ (p.data.size : ℚ) := by exact_mod_cast hn
    rw [hcast]; norm_num; linarith
  have hden := regression_denominator_ge p.data (((p.data.size - 1 : Nat) : ℚ) / 2.0)
    (sum_of_closes p.data / (p.data.size : ℚ)) (p.data.size - 1)
  have hsucc : p.data.size - 1 + 1 = p.data.size := by omega
  rw [hsucc] at hden
  have hdenpos : (0 : ℚ) <
      (regression_sums p.data (((p.data.size - 1 : Nat) : ℚ) / 2.0)
        (sum_of_closes p.data / (p.data.size : ℚ))).2 :=
    lt_of_lt_of_le (mul_pos hxpos hxpos) hden
  have hdenne := ne_of_gt hdenpos
  refine ⟨hdenpos, ?_, ?_⟩
  · simp only [calculate_predictions, hsize, if_false, hmodel]
    rw [if_pos hdenne]
  · simp only [calculate_predictions, hsize, if_false, hmodel]

/-! ## C19: the regression line is the least-squares line -/

/-- The line through the means with slope `Sxy / Sxx` has the least sum of squared
residuals among all lines. -/
theorem least_squares_core (n : Nat) (y : Nat → ℚ) (x_mean y_mean s t : ℚ)
    (hx : Finset.sum (Finset.range n) (fun i => (i : ℚ)) = (n : ℚ) * x_mean)
    (hy : Finset.sum (Finset.range n) y = (n : ℚ) * y_mean)
    (hs : s * Finset.sum (Finset.range n) (fun i => ((i : ℚ) - x_mean) * ((i : ℚ) - x_mean))
      = Finset.sum (Finset.range n) (fun i => ((i : ℚ) - x_mean) * (y i - y_mean)))
    (ht : t = y_mean - s * x_mean) (m c : ℚ) :
    Finset.sum (Finset.range n) (fun i => (y i - (s * (i : ℚ) + t)) ^ 2)
      ≤ Finset.sum (Finset.range n) (fun i => (y i - (m * (i : ℚ) + c)) ^ 2) := by
  have hconst : Finset.sum (Finset.range n) (fun _ => t) = (n : ℚ) * t := by
    rw [Finset.sum_const, Finset.card_range, nsmul_eq_mul]
  have hres : Finset.sum (Finset.range n) (fun i => y i - (s * (i : ℚ) + t)) = 0 := by
    have hsplit : Finset.sum (Finset.range n) (fun i => y i - (s * (i : ℚ) + t))
        = Finset.sum (Finset.range n) y
          - (s * Finset.sum (Finset.range n) (fun i => (i : ℚ))
            + Finset.sum (Finset.range n) (fun _ => t)) := by
      rw [Finset.mul_sum, ← Finset.sum_add_distrib, ← Finset.sum_sub_distrib]
    rw [hsplit, hx, hy, hconst, ht]
    ring
  have hcentred : Finset.sum (Finset.range n)
      (fun i => (y i - (s * (i : ℚ) + t)) * ((i : ℚ) - x_mean)) = 0 := by
    have hsplit : Finset.sum (Finset.range n)
        (fun i => (y i - (s * (i : ℚ) + t)) * ((i : ℚ) - x_mean))
        = Finset.sum (Finset.range n) (fun i => ((i : ℚ) - x_mean) * (y i - y_mean))
          - s * Finset.sum (Finset.range n)
              (fun i => ((i : ℚ) - x_mean) * ((i : ℚ) - x_mean)) := by
      rw [Finset.mul_sum, ← Finset.sum_sub_distrib]
      apply Finset.sum_congr rfl
      intro i _
      rw [ht]
      ring
    rw [hsplit, hs]
    ring
  have hweighted : Finset.sum (Finset.range n)
      (fun i => (y i - (s * (i : ℚ) + t)) * (i : ℚ)) = 0 := by
    have hsplit : Finset.sum (Finset.range n) (fun i => (y i - (s * (i : ℚ) + t)) * (i : ℚ))
        = Finset.sum (Finset.range n)
            (fun i => (y i - (s * (i : ℚ) + t)) * ((i : ℚ) - x_mean))
          + x_mean * Finset.sum (Finset.range n) (fun i => y i - (s * (i : ℚ) + t)) := by
      rw [Finset.mul_sum, ← Finset.sum_add_distrib]
      apply Finset.sum_congr rfl
      intro i _
      ring
    rw [hsplit, hcentred, hres]
    ring
  have hexpand : Finset.sum (Finset.range n) (fun i => (y i - (m * (i : ℚ) + c)) ^ 2)
      = Finset.sum (Finset.range n) (fun i => (y i - (s * (i : ℚ) + t)) ^ 2)
        + 2 * (s - m) * Finset.sum (Finset.range n)
            (fun i => (y i - (s * (i : ℚ) + t)) * (i : ℚ))
        + 2 * (t - c) * Finset.sum (Finset.range n) (fun i => y i - (s * (i : ℚ) + t))
        + Finset.sum (Finset.range n) (fun i => ((s - m) * (i : ℚ) + (t - c)) ^ 2) := by
    rw [Finset.mul_sum, Finset.mul_sum, ← Finset.sum_add_distrib, ← Finset.sum_add_distrib,
      ← Finset.sum_add_distrib]
    apply Finset.sum_congr rfl
    intro i _
    ring
  have hnonneg : 0 ≤ Finset.sum (Finset.range n)
      (fun i => ((s - m) * (i : ℚ) + (t - c)) ^ 2) :=
    Finset.sum_nonneg (fun i _ => sq_nonneg _)
  rw [hexpand, hweighted, hres]
  linarith

/-- C19: under `LINEAR_REGRESSION` on `n ≥ 2` bars, the stored slope and intercept give a sum
of squared residuals `(close[i] - (slope * i + intercept))^2` over `i < n` that is at most
the sum for any other line `(m, c)`, the arithmetic being exact. -/
theorem linear_regression_is_least_squares (p : StockPredictor)
    (hmodel : p.model = PredictionModel.LINEAR_REGRESSION) (hn : 2 ≤ p.data.size) (m c : ℚ) :
    Finset.sum (Finset.range p.data.size)
      (fun i => ((p.data.get i).close
        - ((calculate_predictions p).stats.slope * (i : ℚ)
            + (calculate_predictions p).stats.intercept)) ^ 2)
    ≤ Finset.sum (Finset.range p.data.size)
      (fun i => ((p.data.get i).close - (m * (i : ℚ) + c)) ^ 2) := by
  obtain ⟨hpos, hslope, hicpt⟩ := linear_regression_stores p hmodel hn
  rw [regression_sums_eq_sums] at hpos hslope
  have hcast : ((p.data.size - 1 : Nat) : ℚ) = (p.data.size : ℚ) - 1 := by
    rw [Nat.cast_sub (by omega)]; simp
  have hne : (p.data.size : ℚ) ≠ 0 := by
    have : (2 : ℚ) ≤ (p.data.size : ℚ) := by exact_mod_cast hn
    linarith
  apply least_squares_core p.data.size (fun i => (p.data.get i).close)
    (((p.data.size - 1 : Nat) : ℚ) / 2.0) (sum_of_closes p.data / (p.data.size : ℚ))
  · rw [sum_of_indices, hcast]
    norm_num
    ring
  · rw [← sum_of_closes_eq_sum]
    field_simp
  · rw [hslope]
    exact div_mul_cancel₀ _ (ne_of_gt hpos)
  · exact hicpt

/-- C19, witness: on the bars 10, 20, 30, 40, 50 no line `(1, 2)` does better than the
stored one. -/
theorem linear_regression_is_least_squares_witness :
    (predictor_of_closes PredictionModel.LINEAR_REGRESSION [10, 20, 30, 40, 50]).model
      = PredictionModel.LINEAR_REGRESSION ∧
    2 ≤ (predictor_of_closes PredictionModel.LINEAR_REGRESSION [10, 20, 30, 40, 50]).data.size ∧
    Finset.sum (Finset.range
        (predictor_of_closes PredictionModel.LINEAR_REGRESSION [10, 20, 30, 40, 50]).data.size)
      (fun i =>
        (((predictor_of_closes PredictionModel.LINEAR_REGRESSION
            [10, 20, 30, 40, 50]).data.get i).close
          - ((calculate_predictions (predictor_of_closes PredictionModel.LINEAR_REGRESSION
              [10, 20, 30, 40, 50])).stats.slope * (i : ℚ)
            + (calculate_predictions (predictor_of_closes PredictionModel.LINEAR_REGRESSION
              [10, 20, 30, 40, 50])).stats.intercept)) ^ 2)
    ≤ Finset.sum (Finset.range
        (predictor_of_closes PredictionModel.LINEAR_REGRESSION [10, 20, 30, 40, 50]).data.size)
      (fun i =>
        (((predictor_of_closes PredictionModel.LINEAR_REGRESSION
            [10, 20, 30, 40, 50]).data.get i).close - (1 * (i : ℚ) + 2)) ^ 2) :=
  have hsize : 2 ≤ (predictor_of_closes PredictionModel.LINEAR_REGRESSION
      [10, 20, 30, 40, 50]).data.size := by
    rw [(closes_10_to_50 PredictionModel.LINEAR_REGRESSION).1]
    decide
  ⟨rfl, hsize,
    linear_regression_is_least_squares
      (predictor_of_closes PredictionModel.LINEAR_REGRESSION [10, 20, 30, 40, 50]) rfl hsize 1 2⟩

/-! ## C21: the denominator of the regression -/

/-- C21: for `n ≥ 2` bars, the denominator the `LINEAR_REGRESSION` case computes is the sum
over `i < n` of `(i - (n - 1) / 2)^2`, which equals `n * (n^2 - 1) / 12` and is strictly
positive; so under `LINEAR_REGRESSION` the branch `denominator == 0` is not taken and the
stored slope is `numerator / denominator`. -/
theorem regression_denominator_positive (p : StockPredictor) (hn : 2 ≤ p.data.size) :
    (regression_sums p.data (((p.data.size - 1 : Nat) : ℚ) / 2.0)
        (sum_of_closes p.data / (p.data.size : ℚ))).2
      = Finset.sum (Finset.range p.data.size)
          (fun i => ((i : ℚ) - ((p.data.size : ℚ) - 1) / 2) ^ 2) ∧
    Finset.sum (Finset.range p.data.size)
        (fun i => ((i : ℚ) - ((p.data.size : ℚ) - 1) / 2) ^ 2)
      = (p.data.size : ℚ) * ((p.data.size : ℚ) ^ 2 - 1) / 12 ∧
    0 < (regression_sums p.data (((p.data.size - 1 : Nat) : ℚ) / 2.0)
        (sum_of_closes p.data / (p.data.size : ℚ))).2 ∧
    (regression_sums p.data (((p.data.size - 1 : Nat) : ℚ) / 2.0)
        (sum_of_closes p.data / (p.data.size : ℚ))).2 ≠ 0 ∧
    (p.model = PredictionModel.LINEAR_REGRESSION →
      (calculate_predictions p).stats.slope
        = (regression_sums p.data (((p.data.size - 1 : Nat) : ℚ) / 2.0)
            (sum_of_closes p.data / (p.data.size : ℚ))).1
          / (regression_sums p.data (((p.data.size - 1 : Nat) : ℚ) / 2.0)
            (sum_of_closes p.data / (p.data.size : ℚ))).2) := by
  have hcast : ((p.data.size - 1 : Nat) : ℚ) = (p.data.size : ℚ) - 1 := by
    rw [Nat.cast_sub (by omega)]; simp
  have hxm : ((p.data.size - 1 : Nat) : ℚ) / 2.0 = ((p.data.size : ℚ) - 1) / 2 := by
    rw [hcast]; norm_num
  have hge : (2 : ℚ) ≤ (p.data.size : ℚ) := by exact_mod_cast hn
  have hsum : (regression_sums p.data (((p.data.size - 1 : Nat) : ℚ) / 2.0)
        (sum_of_closes p.data / (p.data.size : ℚ))).2
      = Finset.sum (Finset.range p.data.size)
          (fun i => ((i : ℚ) - ((p.data.size : ℚ) - 1) / 2) ^ 2) := by
    rw [regression_sums_eq_sums, hxm]
    dsimp only
    apply Finset.sum_congr rfl
    intro i _
    ring
  have hclosed : Finset.sum (Finset.range p.data.size)
        (fun i => ((i : ℚ) - ((p.data.size : ℚ) - 1) / 2) ^ 2)
      = (p.data.size : ℚ) * ((p.data.size : ℚ) ^ 2 - 1) / 12 := by
    have hsq : Finset.sum (Finset.range p.data.size)
          (fun i => ((i : ℚ) - ((p.data.size : ℚ) - 1) / 2) ^ 2)
        = Finset.sum (Finset.range p.data.size)
          (fun i => ((i : ℚ) - ((p.data.size : ℚ) - 1) / 2)
            * ((i : ℚ) - ((p.data.size : ℚ) - 1) / 2)) := by
      apply Finset.sum_congr rfl
      intro i _
      ring
    rw [hsq, sum_of_squared_distances]
    ring
  have hpos : 0 < (regression_sums p.data (((p.data.size - 1 : Nat) : ℚ) / 2.0)
        (sum_of_closes p.data / (p.data.size : ℚ))).2 := by
    rw [hsum, hclosed]
    have h1 : (0 : ℚ) < (p.data.size : ℚ) := by linarith
    have h2 : (0 : ℚ) < (p.data.size : ℚ) ^ 2 - 1 := by nlinarith
    positivity
  refine ⟨hsum, hclosed, hpos, ne_of_gt hpos, ?_⟩
  intro hmodel
  have hsize : ¬ p.data.size < 2 := by omega
  simp only [calculate_predictions, hsize, if_false, hmodel]
  rw [if_pos (ne_of_gt hpos)]

/-- C21, witness: five bars give the denominator `5 * (5^2 - 1) / 12 = 10`. -/
theorem regression_denominator_positive_witness :
    2 ≤ (predictor_of_closes PredictionModel.LINEAR_REGRESSION [10, 20, 30, 40, 50]).data.size ∧
    Finset.sum (Finset.range
        (predictor_of_closes PredictionModel.LINEAR_REGRESSION [10, 20, 30, 40, 50]).data.size)
      (fun i => ((i : ℚ)
        - (((predictor_of_closes PredictionModel.LINEAR_REGRESSION
            [10, 20, 30, 40, 50]).data.size : ℚ) - 1) / 2) ^ 2)
    = (((predictor_of_closes PredictionModel.LINEAR_REGRESSION
          [10, 20, 30, 40, 50]).data.size : ℚ))
      * ((((predictor_of_closes PredictionModel.LINEAR_REGRESSION
          [10, 20, 30, 40, 50]).data.size : ℚ)) ^ 2 - 1) / 12 :=
  have hsize : 2 ≤ (predictor_of_closes PredictionModel.LINEAR_REGRESSION
      [10, 20, 30, 40, 50]).data.size := by
    rw [(closes_10_to_50 PredictionModel.LINEAR_REGRESSION).1]
    decide
  ⟨hsize,
    (regression_denominator_positive
      (predictor_of_closes PredictionModel.LINEAR_REGRESSION [10, 20, 30, 40, 50]) hsize).2.1⟩

/-! ## C22: the smoothed value lies within the range of the closes -/

theorem ema_after_within (data : dynamic_array StockData) (lo hi : ℚ)
    (hbound : ∀ i, i < data.size → lo ≤ (data.get i).close ∧ (data.get i).close ≤ hi) :
    ∀ m, m < data.size → lo ≤ ema_after data m ∧ ema_after data m ≤ hi := by
  intro m
  induction m with
  | zero =>
    intro h0
    exact hbound 0 h0
  | succ j ih =>
    intro hj
    obtain ⟨h1, h2⟩ := ih (by omega)
    obtain ⟨h3, h4⟩ := hbound (1 + j) (by omega)
    have hstep : ema_after data (j + 1)
        = 0.3 * (data.get (1 + j)).close + (1 - 0.3) * ema_after data j := rfl
    rw [hstep]
    constructor
    · norm_num
      linarith
    · norm_num
      linarith

/-- After `m` passes `ema` is a weighted mean of the closes `0..m`, the weights being
non-negative with sum 1. -/
theorem ema_after_is_weighted_mean (data : dynamic_array StockData) :
    ∀ m, ∃ w : Nat → ℚ, (∀ i, 0 ≤ w i) ∧
      Finset.sum (Finset.range (m + 1)) w = 1 ∧
      ema_after data m
        = Finset.sum (Finset.range (m + 1)) (fun i => w i * (data.get i).close) := by
  intro m
  induction m with
  | zero =>
    refine ⟨fun _ => 1, fun _ => zero_le_one, by simp, ?_⟩
    simp [ema_after, for_loop]
  | succ j ih =>
    obtain ⟨w, hw0, hw1, hwe⟩ := ih
    have hstep : ema_after data (j + 1)
        = 0.3 * (data.get (1 + j)).close + (1 - 0.3) * ema_after data j := rfl
    refine ⟨fun i => if i = j + 1 then 0.3 else (1 - 0.3) * w i, ?_, ?_, ?_⟩
    · intro i
      by_cases hi : i = j + 1
      · simp only [hi, if_true]; norm_num
      · simp only [hi, if_false]
        have := hw0 i
        norm_num
        linarith
    · rw [Finset.sum_range_succ]
      have hrest : Finset.sum (Finset.range (j + 1))
            (fun i => if i = j + 1 then (0.3 : ℚ) else (1 - 0.3) * w i)
          = (1 - 0.3) * Finset.sum (Finset.range (j + 1)) w := by
        rw [Finset.mul_sum]
        apply Finset.sum_congr rfl
        intro i hi
        have hne : i ≠ j + 1 := by
          have := Finset.mem_range.mp hi
          omega
        rw [if_neg hne]
      rw [hrest, hw1, if_pos rfl]
      norm_num
    · rw [Finset.sum_range_succ]
      have hrest : Finset.sum (Finset.range (j + 1))
            (fun i => (if i = j + 1 then (0.3 : ℚ) else (1 - 0.3) * w i) * (data.get i).close)
          = (1 - 0.3) * Finset.sum (Finset.range (j + 1))
              (fun i => w i * (data.get i).close) := by
        rw [Finset.mul_sum]
        apply Finset.sum_congr rfl
        intro i hi
        have hne : i ≠ j + 1 := by
          have := Finset.mem_range.mp hi
          omega
        rw [if_neg hne]
        ring
      have hidx : 1 + j = j + 1 := by omega
      rw [hrest, ← hwe, hstep, hidx]
      beta_reduce
      rw [if_pos rfl]
      ring

/-- C22: under `EXPONENTIAL_SMOOTHING` on `n ≥ 2` bars, the next prediction is a weighted
mean of the closes with non-negative weights of sum 1, and it lies between the smallest and
the largest close of the buffer, the arithmetic being exact. -/
theorem exponential_smoothing_within_range (p : StockPredictor)
    (hmodel : p.model = PredictionModel.EXPONENTIAL_SMOOTHING) (hn : 2 ≤ p.data.size) :
    (∃ w : Nat → ℚ, (∀ i, 0 ≤ w i) ∧
      Finset.sum (Finset.range p.data.size) w = 1 ∧
      (calculate_predictions p).stats.next_prediction
        = Finset.sum (Finset.range p.data.size) (fun i => w i * (p.data.get i).close)) ∧
    (∃ i j, i < p.data.size ∧ j < p.data.size ∧
      (∀ k, k < p.data.size →
        (p.data.get i).close ≤ (p.data.get k).close ∧
        (p.data.get k).close ≤ (p.data.get j).close) ∧
      (p.data.get i).close ≤ (calculate_predictions p).stats.next_prediction ∧
      (calculate_predictions p).stats.next_prediction ≤ (p.data.get j).close) := by
  have hsize : ¬ p.data.size < 2 := by omega
  have hnext : (calculate_predictions p).stats.next_prediction
      = ema_after p.data (p.data.size - 1) := by
    simp only [calculate_predictions, hsize, if_false, hmodel]
  have hsucc : p.data.size - 1 + 1 = p.data.size := by omega
  refine ⟨?_, ?_⟩
  · obtain ⟨w, hw0, hw1, hwe⟩ := ema_after_is_weighted_mean p.data (p.data.size - 1)
    rw [hsucc] at hw1 hwe
    exact ⟨w, hw0, hw1, by rw [hnext, hwe]⟩
  · have hne : (Finset.range p.data.size).Nonempty :=
      ⟨0, Finset.mem_range.mpr (by omega)⟩
    obtain ⟨i, hi, hmin⟩ := Finset.exists_min_image (Finset.range p.data.size)
      (fun k => (p.data.get k).close) hne
    obtain ⟨j, hj, hmax⟩ := Finset.exists_max_image (Finset.range p.data.size)
      (fun k => (p.data.get k).close) hne
    have hall : ∀ k, k < p.data.size →
        (p.data.get i).close ≤ (p.data.get k).close ∧
        (p.data.get k).close ≤ (p.data.get j).close :=
      fun k hk => ⟨hmin k (Finset.mem_range.mpr hk), hmax k (Finset.mem_range.mpr hk)⟩
    obtain ⟨hlo, hhi⟩ := ema_after_within p.data _ _ hall (p.data.size - 1) (by omega)
    exact ⟨i, j, Finset.mem_range.mp hi, Finset.mem_range.mp hj, hall,
      by rw [hnext]; exact hlo, by rw [hnext]; exact hhi⟩

/-- C22, witness: on the bars 10, 20, 30, 40, 50 the smoothed value lies between two closes
of the buffer that bound all the others. -/
theorem exponential_smoothing_within_range_witness :
    (predictor_of_closes PredictionModel.EXPONENTIAL_SMOOTHING [10, 20, 30, 40, 50]).model
      = PredictionModel.EXPONENTIAL_SMOOTHING ∧
    2 ≤ (predictor_of_closes PredictionModel.EXPONENTIAL_SMOOTHING
      [10, 20, 30, 40, 50]).data.size ∧
    ∃ i j,
      i < (predictor_of_closes PredictionModel.EXPONENTIAL_SMOOTHING
        [10, 20, 30, 40, 50]).data.size ∧
      j < (predictor_of_closes PredictionModel.EXPONENTIAL_SMOOTHING
        [10, 20, 30, 40, 50]).data.size ∧
      (∀ k, k < (predictor_of_closes PredictionModel.EXPONENTIAL_SMOOTHING
          [10, 20, 30, 40, 50]).data.size →
        ((predictor_of_closes PredictionModel.EXPONENTIAL_SMOOTHING
            [10, 20, 30, 40, 50]).data.get i).close
          ≤ ((predictor_of_closes PredictionModel.EXPONENTIAL_SMOOTHING
            [10, 20, 30, 40, 50]).data.get k).close ∧
        ((predictor_of_closes PredictionModel.EXPONENTIAL_SMOOTHING
            [10, 20, 30, 40, 50]).data.get k).close
          ≤ ((predictor_of_closes PredictionModel.EXPONENTIAL_SMOOTHING
            [10, 20, 30, 40, 50]).data.get j).close) ∧
      ((predictor_of_closes PredictionModel.EXPONENTIAL_SMOOTHING
          [10, 20, 30, 40, 50]).data.get i).close
        ≤ (calculate_predictions (predictor_of_closes PredictionModel.EXPONENTIAL_SMOOTHING
            [10, 20, 30, 40, 50])).stats.next_prediction ∧
      (calculate_predictions (predictor_of_closes PredictionModel.EXPONENTIAL_SMOOTHING
          [10, 20, 30, 40, 50])).stats.next_prediction
        ≤ ((predictor_of_closes PredictionModel.EXPONENTIAL_SMOOTHING
            [10, 20, 30, 40, 50]).data.get j).close :=
  have hsize : 2 ≤ (predictor_of_closes PredictionModel.EXPONENTIAL_SMOOTHING
      [10, 20, 30, 40, 50]).data.size := by
    rw [(closes_10_to_50 PredictionModel.EXPONENTIAL_SMOOTHING).1]
    decide
  ⟨rfl, hsize,
    (exponential_smoothing_within_range
      (predictor_of_closes PredictionModel.EXPONENTIAL_SMOOTHING [10, 20, 30, 40, 50])
      rfl hsize).2⟩

/-! ## C8 in binary64 -/

theorem round_half_even_below (x : ℚ) (f : ℤ) (h1 : (f : ℚ) ≤ x) (h2 : x - f < 1 / 2) :
    round_half_even x = f := by
  have hfloor : ⌊x⌋ = f := by
    rw [Int.floor_eq_iff]
    constructor
    · exact h1
    · linarith
  unfold round_half_even
  rw [hfloor, if_pos h2]

theorem round_half_even_above (x : ℚ) (f : ℤ) (h1 : x < (f : ℚ) + 1) (h2 : 1 / 2 < x - f) :
    round_half_even x = f + 1 := by
  have hfloor : ⌊x⌋ = f := by
    rw [Int.floor_eq_iff]
    constructor
    · linarith
    · exact h1
  have hnot : ¬ x - (f : ℚ) < 1 / 2 := by linarith
  unfold round_half_even
  rw [hfloor, if_neg hnot, if_pos h2]

theorem round_half_even_tie (x : ℚ) (f : ℤ) (h : x - f = 1 / 2) :
    round_half_even x = if f % 2 = 0 then f else f + 1 := by
  have hfloor : ⌊x⌋ = f := by
    rw [Int.floor_eq_iff]
    constructor
    · linarith
    · linarith
  have hnot1 : ¬ x - (f : ℚ) < 1 / 2 := by linarith
  have hnot2 : ¬ x - (f : ℚ) > 1 / 2 := by linarith
  unfold round_half_even
  rw [hfloor, if_neg hnot1, if_neg hnot2]

/-- The rounding of a positive `x` with `2 ^ e ≤ x < 2 ^ (e + 1)`. -/
theorem binary64_of_pos (x : ℚ) (e : ℤ) (hlo : (2 : ℚ) ^ e ≤ x) (hhi : x < (2 : ℚ) ^ (e + 1)) :
    binary64 x = (round_half_even (x / 2 ^ (e - 52)) : ℚ) * 2 ^ (e - 52) := by
  have hpos : (0 : ℚ) < x := lt_of_lt_of_le (zpow_pos (by norm_num) e) hlo
  have habs : |x| = x := abs_of_pos hpos
  have hlog : Int.log 2 x = e := by
    have h1 : e ≤ Int.log 2 x :=
      (Int.zpow_le_iff_le_log (by norm_num) hpos).mp (by exact_mod_cast hlo)
    have h2 : Int.log 2 x < e + 1 :=
      (Int.lt_zpow_iff_log_lt (by norm_num) hpos).mp (by exact_mod_cast hhi)
    omega
  unfold binary64
  rw [if_neg (ne_of_gt hpos), habs, hlog]

/-- The literal `0.3` as a binary64 value. -/
theorem binary64_of_three_tenths :
    binary64 0.3 = 5404319552844595 / 18014398509481984 := by
  rw [binary64_of_pos 0.3 (-2) (by norm_num) (by norm_num),
    round_half_even_below _ 5404319552844595 (by norm_num) (by norm_num)]
  norm_num

/-- The close 3 is a binary64 value. -/
theorem binary64_of_three : binary64 3 = 3 := by
  rw [binary64_of_pos 3 1 (by norm_num) (by norm_num),
    round_half_even_below _ 6755399441055744 (by norm_num) (by norm_num)]
  norm_num

/-- One pass of the smoothing step on `close = 3`, `ema = 3` in binary64: the products round
to `0.8999999999999999` and `2.0999999999999996`, their sum is `3 - 2^-51`. -/
theorem binary64_smoothing_step_at_three :
    binary64 (binary64 0.3 * 3) = 8106479329266892 / 9007199254740992 ∧
    binary64 (1 - binary64 0.3) = 6305039478318694 / 9007199254740992 ∧
    binary64 (binary64 (1 - binary64 0.3) * 3) = 4728779608739020 / 2251799813685248 ∧
    binary64 (binary64 (binary64 0.3 * 3) + binary64 (binary64 (1 - binary64 0.3) * 3))
      = 6755399441055743 / 2251799813685248 := by
  have h1 : binary64 (binary64 0.3 * 3) = 8106479329266892 / 9007199254740992 := by
    rw [binary64_of_three_tenths,
      binary64_of_pos _ (-1) (by norm_num) (by norm_num),
      round_half_even_tie _ 8106479329266892 (by norm_num)]
    norm_num
  have h2 : binary64 (1 - binary64 0.3) = 6305039478318694 / 9007199254740992 := by
    rw [binary64_of_three_tenths,
      binary64_of_pos _ (-1) (by norm_num) (by norm_num),
      round_half_even_tie _ 6305039478318694 (by norm_num)]
    norm_num
  have h3 : binary64 (binary64 (1 - binary64 0.3) * 3)
      = 4728779608739020 / 2251799813685248 := by
    rw [h2, binary64_of_pos _ 1 (by norm_num) (by norm_num),
      round_half_even_tie _ 4728779608739020 (by norm_num)]
    norm_num
  refine ⟨h1, h2, h3, ?_⟩
  rw [h1, h3, binary64_of_pos _ 1 (by norm_num) (by norm_num),
    round_half_even_below _ 6755399441055743 (by norm_num) (by norm_num)]
  norm_num

/-- C8, counterexample: two bars closing at 3 under `EXPONENTIAL_SMOOTHING`. The close 3 is a
binary64 value, and the loop as the machine runs it leaves `ema = 3 - 2^-51`
(`2.9999999999999996`), not 3. -/
theorem exponential_smoothing_fixed_point_counterexample :
    (predictor_of_closes PredictionModel.EXPONENTIAL_SMOOTHING [3, 3]).model
      = PredictionModel.EXPONENTIAL_SMOOTHING ∧
    (predictor_of_closes PredictionModel.EXPONENTIAL_SMOOTHING [3, 3]).data.size = 2 ∧
    (∀ i, i < (predictor_of_closes PredictionModel.EXPONENTIAL_SMOOTHING [3, 3]).data.size →
      ((predictor_of_closes PredictionModel.EXPONENTIAL_SMOOTHING [3, 3]).data.get i).close
        = 3) ∧
    binary64 3 = 3 ∧
    ema_after_binary64 (predictor_of_closes PredictionModel.EXPONENTIAL_SMOOTHING [3, 3]).data
        ((predictor_of_closes PredictionModel.EXPONENTIAL_SMOOTHING [3, 3]).data.size - 1)
      = 3 - 1 / 2 ^ 51 ∧
    ema_after_binary64 (predictor_of_closes PredictionModel.EXPONENTIAL_SMOOTHING [3, 3]).data
        ((predictor_of_closes PredictionModel.EXPONENTIAL_SMOOTHING [3, 3]).data.size - 1)
      ≠ 3 := by
  obtain ⟨hs, hc⟩ := predictor_of_closes_data PredictionModel.EXPONENTIAL_SMOOTHING [3, 3]
    (by decide)
  have hsize : (predictor_of_closes PredictionModel.EXPONENTIAL_SMOOTHING [3, 3]).data.size
      = 2 := hs
  have h0 : ((predictor_of_closes PredictionModel.EXPONENTIAL_SMOOTHING [3, 3]).data.get 0).close
      = 3 := hc 0 (by decide)
  have h1 : ((predictor_of_closes PredictionModel.EXPONENTIAL_SMOOTHING [3, 3]).data.get 1).close
      = 3 := hc 1 (by decide)
  have hall : ∀ i,
      i < (predictor_of_closes PredictionModel.EXPONENTIAL_SMOOTHING [3, 3]).data.size →
      ((predictor_of_closes PredictionModel.EXPONENTIAL_SMOOTHING [3, 3]).data.get i).close
        = 3 := by
    intro i hi
    rw [hsize] at hi
    interval_cases i
    · exact h0
    · exact h1
  have hrun : ema_after_binary64
      (predictor_of_closes PredictionModel.EXPONENTIAL_SMOOTHING [3, 3]).data
        ((predictor_of_closes PredictionModel.EXPONENTIAL_SMOOTHING [3, 3]).data.size - 1)
      = 3 - 1 / 2 ^ 51 := by
    rw [hsize]
    show binary64 (binary64 (binary64 0.3 *
        ((predictor_of_closes PredictionModel.EXPONENTIAL_SMOOTHING [3, 3]).data.get (1 + 0)).close)
      + binary64 (binary64 (1 - binary64 0.3) *
        ((predictor_of_closes PredictionModel.EXPONENTIAL_SMOOTHING [3, 3]).data.get 0).close))
      = 3 - 1 / 2 ^ 51
    rw [h0, show (1 + 0 : Nat) = 1 from rfl, h1, binary64_smoothing_step_at_three.2.2.2]
    norm_num
  refine ⟨rfl, hsize, hall, binary64_of_three, hrun, ?_⟩
  rw [hrun]
  norm_num

/-- One pass of the smoothing step on `close = 10`, `ema = 10` in binary64: the products
round to 3 and 7, and the sum is 10, so here the machine value agrees with the exact one. -/
theorem binary64_smoothing_step_at_ten :
    binary64 (binary64 0.3 * 10) = 3 ∧
    binary64 (binary64 (1 - binary64 0.3) * 10) = 7 ∧
    binary64 (binary64 (binary64 0.3 * 10) + binary64 (binary64 (1 - binary64 0.3) * 10))
      = 10 := by
  have h1 : binary64 (binary64 0.3 * 10) = 3 := by
    rw [binary64_of_three_tenths,
      binary64_of_pos _ 1 (by norm_num) (by norm_num),
      round_half_even_above _ 6755399441055743 (by norm_num) (by norm_num)]
    norm_num
  have h3 : binary64 (binary64 (1 - binary64 0.3) * 10) = 7 := by
    rw [binary64_smoothing_step_at_three.2.1,
      binary64_of_pos _ 2 (by norm_num) (by norm_num),
      round_half_even_tie _ 7881299347898367 (by norm_num)]
    norm_num
  refine ⟨h1, h3, ?_⟩
  rw [h1, h3, binary64_of_pos _ 3 (by norm_num) (by norm_num),
    round_half_even_below _ 5629499534213120 (by norm_num) (by norm_num)]
  norm_num

/-- On bars that all close at 10 the loop as the machine runs it keeps `ema = 10`. -/
theorem ema_after_binary64_at_ten (data : dynamic_array StockData)
    (hconst : ∀ i, i < data.size → (data.get i).close = 10) :
    ∀ m, m < data.size → ema_after_binary64 data m = 10 := by
  intro m
  induction m with
  | zero =>
    intro h0
    exact hconst 0 h0
  | succ j ih =>
    intro hj
    have hprev : ema_after_binary64 data j = 10 := ih (by omega)
    have hstep : ema_after_binary64 data (j + 1)
        = binary64 (binary64 (binary64 0.3 * (data.get (1 + j)).close)
          + binary64 (binary64 (1 - binary64 0.3) * ema_after_binary64 data j)) := rfl
    rw [hstep, hprev, hconst (1 + j) (by omega)]
    exact binary64_smoothing_step_at_ten.2.2
